import Mathlib

/-! TCP chat relay (`main.go`): registry, broadcast and session life cycle

A shallow embedding of the chat server of `main.go`.

* Go strings are modelled by `String` (well-formed Unicode text); `len` is the
  length in bytes of the UTF-8 encoding, as in Go.
* A `*Client` is identified with the connection it wraps: `handleConnection`
  allocates exactly one `Client` per accepted connection and never reassigns
  `Conn`, so the handle of a session is the number of its connection.
* The map `clients` is a list of handles without repetition; iteration follows
  the list (Go iterates a map in an unspecified order, and every broadcast
  writes at most once to each connection, so the stream of a single connection
  does not depend on that order).
* Every goroutine is cut into atomic steps, each holding at most one critical
  section or one access to shared data; what a goroutine does on its own
  between two such accesses (reading a line, trimming it, testing its length)
  is part of the step that follows.  A run is a list of events chosen by the
  scheduler and the environment.
* A `line` event carries what `ReadString` or `scanner.Text` returned; write
  errors are ignored, as the code ignores the results of `fmt.Fprintf`.
* A write is labelled with the call site that issued it (`Write.text`,
  `Write.live`, `Write.replayed`); what reaches the peer is `Write.bytes`.
-/

namespace Netcat

/-! ## Strings -/

/-- Go `unicode.IsSpace`. -/
def IsSpace (c : Char) : Bool :=
  let n := c.toNat
  n == 0x09 || n == 0x0A || n == 0x0B || n == 0x0C || n == 0x0D || n == 0x20
    || n == 0x85 || n == 0xA0 || n == 0x1680 || (0x2000 ≤ n && n ≤ 0x200A)
    || n == 0x2028 || n == 0x2029 || n == 0x202F || n == 0x205F || n == 0x3000

/-- Go `strings.TrimSpace`: leading and trailing white space removed. -/
def TrimSpace (s : String) : String :=
  ⟨((s.data.dropWhile IsSpace).reverse.dropWhile IsSpace).reverse⟩

/-- Go `strings.HasPrefix`. -/
def HasPrefix (s pre : String) : Bool :=
  pre.data.isPrefixOf s.data

/-- Go `strings.TrimPrefix`. -/
def TrimPrefix (s pre : String) : String :=
  if HasPrefix s pre then ⟨s.data.drop pre.data.length⟩ else s

/-- Go `strings.Contains`. -/
def Contains (s substr : String) : Bool :=
  s.data.tails.any (fun t => substr.data.isPrefixOf t)

/-- Go `len` on a string: the number of bytes of its UTF-8 encoding. -/
def len (s : String) : Nat :=
  s.utf8ByteSize

/-! ## Data model -/

/-- A `time.Time`, reduced to the civil fields that `Format` prints. -/
structure Time where
  year : Nat
  month : Nat
  day : Nat
  hour : Nat
  minute : Nat
  second : Nat
deriving DecidableEq

/-- One decimal digit. -/
def digit (n : Nat) : Char :=
  Char.ofNat (48 + n % 10)

/-- Two digits, zero padded. -/
def pad2 (n : Nat) : List Char :=
  [digit (n / 10), digit n]

/-- Four digits, zero padded. -/
def pad4 (n : Nat) : List Char :=
  [digit (n / 1000), digit (n / 100), digit (n / 10), digit n]

/-- Go `Time.Format("2006-01-02 15:04:05")`, for a four digit year. -/
def Time.Format (t : Time) : String :=
  ⟨pad4 t.year ++ '-' :: pad2 t.month ++ '-' :: pad2 t.day ++ ' ' :: pad2 t.hour
    ++ ':' :: pad2 t.minute ++ ':' :: pad2 t.second⟩

structure Message where
  Timestamp : Time
  Name : String
  Text : String
deriving DecidableEq

structure Client where
  Name : String
  Conn : Nat
  Joined : Time
deriving DecidableEq

/-- The text of a join announcement (lines 124 and 129). -/
def joinedText : String := "has joined our chat..."

/-- The text of a leave announcement (line 182). -/
def leftText : String := "has left our chat..."

/-- The bytes `sendMessageToClient` writes to the connection (lines 202-208). -/
def sendMessageToClient (msg : Message) : String :=
  if Contains msg.Text "joined our chat" || Contains msg.Text "left our chat" then
    msg.Name ++ " " ++ msg.Text ++ "\n"
  else
    "[" ++ msg.Timestamp.Format ++ "][" ++ msg.Name ++ "]: " ++ msg.Text ++ "\n"

/-- The line `logMessage` hands to `log.Printf` (lines 210-212). -/
def logMessage (msg : Message) : String :=
  "[" ++ msg.Timestamp.Format ++ "][" ++ msg.Name ++ "]: " ++ msg.Text ++ "\n"

/-- The banner of `getAsciiLogo` (lines 225-244). -/
def getAsciiLogo : String :=
  "\n" ++
  "         _nnnn_\n" ++
  "        dGGGGMMb\n" ++
  "       @p~qp~~qMb\n" ++
  "       M|@||@) M|\n" ++
  "       @,----.JM|\n" ++
  "      JS^\\__/  qKL\n" ++
  "     dZP        qKRb\n" ++
  "    dZP          qKKb\n" ++
  "   fZP            SMMb\n" ++
  "   HZM            MMMM\n" ++
  "   FqM            MMMM\n" ++
  " __| \".        |\\dS\"qML\n" ++
  " |    \x60.       | \x60\x27 \\Zq\n" ++
  "_)      \\.___.,|     .\x27\n" ++
  "\\____   )MMMMMP|   .\x27\n" ++
  "     \x60-\x27       \x60--\x27\n" ++
  ""

/-! ## Sessions and the shared state -/

/-- Where a `handleConnection` goroutine stands. -/
inductive Pc
  /-- Lines 91 and 101: blocked in `ReadString`, waiting for a name. -/
  | readName
  /-- Line 110: the name passed `isUsernameTaken`; about to take the lock and register. -/
  | register
  /-- Line 121: registered; about to broadcast the join announcement. -/
  | announce
  /-- Line 128: about to evaluate `range messages`. -/
  | history
  /-- Lines 128-132: inside the replay loop, these records still to visit. -/
  | replay (pending : List Message)
  /-- Line 136: blocked in `scanner.Scan`. -/
  | active
  /-- Lines 154-155: the new name passed both checks; about to assign `client.Name`. -/
  | rename (newName : String)
  /-- Line 156: `client.Name` assigned; about to broadcast the rename message. -/
  | renamed (oldName newName : String)
  /-- Line 175: the read loop ended; about to take the lock and delete the client. -/
  | deregister
  /-- Line 179: deleted; about to broadcast the leave announcement. -/
  | farewell
  /-- The goroutine returned; the deferred `conn.Close()` ran. -/
  | closed
deriving DecidableEq

/-- One goroutine running `handleConnection`: its `Client` and its position. -/
structure Session where
  client : Client
  pc : Pc
deriving DecidableEq

/-- One write to a connection, labelled with the call site that issued it. -/
inductive Write
  /-- A `fmt.Fprintf(conn, ...)` of `handleConnection` (prompts and error lines). -/
  | text (conn : Nat) (s : String)
  /-- A `sendMessageToClient` called by `broadcastMessage` (line 198). -/
  | live (conn : Nat) (msg : Message)
  /-- A `sendMessageToClient` called by the replay loop (line 130). -/
  | replayed (conn : Nat) (msg : Message)
deriving DecidableEq

/-- The connection a write goes to. -/
def Write.conn : Write → Nat
  | .text c _ => c
  | .live c _ => c
  | .replayed c _ => c

/-- The bytes of a write. -/
def Write.bytes : Write → String
  | .text _ s => s
  | .live _ msg => sendMessageToClient msg
  | .replayed _ msg => sendMessageToClient msg

/-- The globals of `main.go` together with all goroutines and all output. -/
structure State where
  /-- Every `handleConnection` goroutine ever started; the index is the handle. -/
  sessions : List Session
  /-- The keys of the map `clients`. -/
  clients : List Nat
  /-- The slice `messages`. -/
  messages : List Message
  /-- What was handed to `log.Printf`, in order (without the logger's own prefix). -/
  log : List String
  /-- Everything written to connections, in order. -/
  writes : List Write
  /-- The accept loop of `main`: `none` at line 61, `some full` when blocked in
  `ln.Accept()` after the test of line 61 gave `full`. -/
  acceptor : Option Bool
deriving DecidableEq

/-- The state at the first iteration of the accept loop. -/
def init : State :=
  { sessions := [], clients := [], messages := [], log := [], writes := [], acceptor := none }

/-- The `Client` behind a handle. -/
def State.client (s : State) (h : Nat) : Client :=
  match s.sessions[h]? with
  | some x => x.client
  | none => { Name := "", Conn := h, Joined := ⟨0, 0, 0, 0, 0, 0⟩ }

/-- The position of the goroutine behind a handle (`closed` when there is none). -/
def State.pc (s : State) (h : Nat) : Pc :=
  match s.sessions[h]? with
  | some x => x.pc
  | none => .closed

/-- Move the goroutine `h` to position `p`. -/
def State.goto (s : State) (h : Nat) (p : Pc) : State :=
  match s.sessions[h]? with
  | some x => { s with sessions := s.sessions.set h { x with pc := p } }
  | none => s

/-- Assign `client.Name` of the goroutine `h`. -/
def State.setName (s : State) (h : Nat) (name : String) : State :=
  match s.sessions[h]? with
  | some x => { s with sessions := s.sessions.set h { x with client := { x.client with Name := name } } }
  | none => s

/-- A `fmt.Fprintf(conn, ...)` on the connection of `h`. -/
def State.fprintf (s : State) (h : Nat) (txt : String) : State :=
  { s with writes := s.writes ++ [Write.text (s.client h).Conn txt] }

/-- A `log.Printf`. -/
def State.printf (s : State) (txt : String) : State :=
  { s with log := s.log ++ [txt] }

/-- What one connection received, in order. -/
def State.stream (s : State) (conn : Nat) : List String :=
  (s.writes.filter (fun w => w.conn == conn)).map Write.bytes

/-- The function `isUsernameTaken` (lines 214-223). -/
def isUsernameTaken (s : State) (name : String) : Bool :=
  s.clients.any (fun h => (s.client h).Name == name)

/-- The test of line 191: the last record has the sender and the text of `msg`. -/
def isDuplicate (s : State) (msg : Message) : Bool :=
  match s.messages.getLast? with
  | some last => last.Name == msg.Name && last.Text == msg.Text
  | none => false

/-- The function `broadcastMessage` (lines 186-200), one critical section. -/
def broadcastMessage (s : State) (msg : Message) : State :=
  if isDuplicate s msg then s
  else
    { s with
      messages := s.messages ++ [msg]
      log := s.log ++ [logMessage msg]
      writes := s.writes ++ s.clients.map (fun h => Write.live (s.client h).Conn msg) }

/-- The test of line 129: the replay loop sends this record. -/
def replaySends (name : String) (msg : Message) : Bool :=
  msg.Name != name || msg.Text != joinedText

/-- The records one connection received from `broadcastMessage`, in order. -/
def State.liveTo (s : State) (conn : Nat) : List Message :=
  s.writes.filterMap fun w =>
    match w with
    | .live c msg => if c = conn then some msg else none
    | _ => none

/-- The records one connection received from the replay loop, in order. -/
def State.replayedTo (s : State) (conn : Nat) : List Message :=
  s.writes.filterMap fun w =>
    match w with
    | .replayed c msg => if c = conn then some msg else none
    | _ => none

/-- The records one connection received, live or replayed, in order. -/
def State.observed (s : State) (conn : Nat) : List Message :=
  s.writes.filterMap fun w =>
    match w with
    | .live c msg => if c = conn then some msg else none
    | .replayed c msg => if c = conn then some msg else none
    | .text _ _ => none

/-- No two registered sessions have the same name. -/
def namesUnique (s : State) : Prop :=
  (s.clients.map fun h => (s.client h).Name).Nodup

instance (s : State) : Decidable (namesUnique s) := by
  unfold namesUnique; infer_instance

/-! ## Steps -/

/-- What the scheduler and the environment can make happen. -/
inductive Event
  /-- The accept loop evaluates `len(clients) >= 10` (line 61). -/
  | gate
  /-- Function `ln.Accept` returns a connection (lines 63 and 72). -/
  | accept (now : Time)
  /-- Function `ln.Accept` returns an error. -/
  | acceptFail (err : String)
  /-- The goroutine `h` reads a line. -/
  | line (h : Nat) (txt : String) (now : Time)
  /-- The read of the goroutine `h` fails (`none`: end of stream). -/
  | fail (h : Nat) (err : Option String)
  /-- The goroutine `h` runs to its next access to shared data. -/
  | run (h : Nat) (now : Time)
deriving DecidableEq

/-- Line 61. -/
def gateStep (s : State) : State :=
  match s.acceptor with
  | some _ => s
  | none =>
    if 10 ≤ s.clients.length then
      { s.printf "Server is Full" with acceptor := some true }
    else { s with acceptor := some false }

/-- Lines 63-77 and 84-90: a connection arrives. -/
def acceptStep (s : State) (now : Time) : State :=
  match s.acceptor with
  | none => s
  | some true => { s with acceptor := none }
  | some false =>
    let h := s.sessions.length
    let s1 : State :=
      { s with
        acceptor := none
        sessions := s.sessions ++ [{ client := { Name := "", Conn := h, Joined := now }, pc := .readName }] }
    s1.fprintf h ("Welcome to TCP-Chat!\n" ++ getAsciiLogo ++ "\n[ENTER YOUR NAME]: ")

/-- Lines 64-65 and 73-75. -/
def acceptFailStep (s : State) (err : String) : State :=
  match s.acceptor with
  | none => s
  | some _ => { s.printf ("Failed to accept connection: " ++ err) with acceptor := none }

/-- Lines 91-107: a name arrives and is checked. -/
def nameStep (s : State) (h : Nat) (txt : String) : State :=
  let name := TrimSpace txt
  let s1 := s.setName h name
  if isUsernameTaken s1 name then
    s1.fprintf h
      ("Username " ++ name ++ " is already taken. Please choose another.\n[ENTER ANOTHER NAME]: ")
  else s1.goto h .register

/-- Lines 137-168: one line read by the scanner loop of an active session. -/
def lineStep (s : State) (h : Nat) (txt : String) (now : Time) : State :=
  let msg := TrimSpace txt
  if msg = "" then s
  else if HasPrefix msg "/name " then
    let newName := TrimSpace (TrimPrefix msg "/name ")
    if len newName < 3 ∨ len newName > 20 then
      s.fprintf h "Invalid username length. Must be between 3 and 20 characters.\n"
    else if isUsernameTaken s newName then
      s.fprintf h ("Username " ++ newName ++ " is already taken. Please choose another.\n")
    else s.goto h (.rename newName)
  else
    broadcastMessage s { Timestamp := now, Name := (s.client h).Name, Text := msg }

/-- Lines 110-118: the registration, one critical section. -/
def registerStep (s : State) (h : Nat) : State :=
  if 10 ≤ s.clients.length then
    (s.printf "Maximum number of clients (10) reached, rejecting new connection").goto h .closed
  else
    { s with clients := if h ∈ s.clients then s.clients else s.clients ++ [h] }.goto h .announce

/-- Lines 175-177: the deregistration, one critical section. -/
def deregisterStep (s : State) (h : Nat) : State :=
  { s with clients := s.clients.filter (fun k => k != h) }.goto h .farewell

/-- One step of the goroutine `h` that needs no input. -/
def runStep (s : State) (h : Nat) (now : Time) : State :=
  match s.pc h with
  | .register => registerStep s h
  | .announce =>
    (broadcastMessage s { Timestamp := now, Name := (s.client h).Name, Text := joinedText }).goto h
      .history
  | .history => s.goto h (.replay s.messages)
  | .replay [] => s.goto h .active
  | .replay (msg :: rest) =>
    let s1 : State :=
      if replaySends (s.client h).Name msg then
        { s with writes := s.writes ++ [Write.replayed (s.client h).Conn msg] }
      else s
    s1.goto h (.replay rest)
  | .rename newName => (s.setName h newName).goto h (.renamed (s.client h).Name newName)
  | .renamed oldName newName =>
    (broadcastMessage s
      { Timestamp := now, Name := oldName, Text := "changed their name to " ++ newName }).goto h
      .active
  | .deregister => deregisterStep s h
  | .farewell =>
    (broadcastMessage s { Timestamp := now, Name := (s.client h).Name, Text := leftText }).goto h
      .closed
  | _ => s

/-- The effect of one event. -/
def step (s : State) : Event → State
  | .gate => gateStep s
  | .accept now => acceptStep s now
  | .acceptFail err => acceptFailStep s err
  | .line h txt now =>
    match s.pc h with
    | .readName => nameStep s h txt
    | .active => lineStep s h txt now
    | _ => s
  | .fail h err =>
    match s.pc h with
    | .readName => (s.printf ("Failed to read client name: " ++ err.getD "EOF")).goto h .closed
    | .active =>
      match err with
      | some e => (s.printf ("Error reading from connection: " ++ e ++ "\n")).goto h .deregister
      | none => s.goto h .deregister
    | _ => s
  | .run h now => runStep s h now

/-- The state after a list of events. -/
def exec (s : State) (evs : List Event) : State :=
  evs.foldl step s

/-- The states the server can be in. -/
def Reachable (s : State) : Prop :=
  ∃ evs, s = exec init evs

/-- The writes a step adds. -/
def emitted (s : State) (ev : Event) : List Write :=
  (step s ev).writes.drop s.writes.length

/-! ## Scenarios -/

/-- A fixed instant. -/
def t0 : Time := ⟨2024, 1, 2, 3, 4, 5⟩

/-- A later instant. -/
def t1 : Time := ⟨2024, 1, 2, 3, 4, 6⟩

/-- A still later instant. -/
def t2 : Time := ⟨2024, 1, 2, 3, 4, 7⟩

/-- A connection is accepted at `now` and the session registers under `name`,
announces itself and reads the store for its replay, undisturbed. -/
def joinAt (h : Nat) (name : String) (now : Time) : List Event :=
  [.gate, .accept now, .line h (name ++ "\n") now, .run h now, .run h now, .run h now]

/-- The same at the instant `t0`. -/
def join (h : Nat) (name : String) : List Event :=
  joinAt h name t0

/-- Enough steps of the session `h` to finish its replay loop and reach the read
loop (further steps are idle). -/
def settle (h : Nat) : List Event :=
  List.replicate 8 (.run h t0)

/-- Alice has joined and sits in her read loop. -/
def oneActive : List Event :=
  join 0 "Alice" ++ settle 0

/-- The sessions `ann` and `bob` have joined and sit in their read loops. -/
def twoActive : List Event :=
  join 0 "ann" ++ settle 0 ++ join 1 "bob" ++ settle 1

/-- Two connections send the same name; both checks run before either registration. -/
def joinRace : List Event :=
  [.gate, .accept t0, .gate, .accept t0, .line 0 "bob\n" t0, .line 1 "bob\n" t0, .run 0 t0,
    .run 1 t0]

/-- Two active sessions ask for the same free name; both checks run before
either assignment. -/
def renameRace : List Event :=
  twoActive ++ [.line 0 "/name carl" t1, .line 1 "/name carl" t1, .run 0 t2, .run 1 t2,
    .run 0 t2, .run 1 t2]

/-- Alice joins and leaves; a new connection registers as Alice and announces
itself. -/
def rejoinStart : List Event :=
  oneActive ++ [.fail 0 none, .run 0 t1, .run 0 t1] ++
    [.gate, .accept t2, .line 1 "Alice\n" t2, .run 1 t2, .run 1 t2]

/-- The same, followed by the replay of the new session. -/
def rejoin : List Event :=
  rejoinStart ++ [.run 1 t2] ++ settle 1

/-- Alice joins and says `hello`; then Bob joins. -/
def lateJoin : List Event :=
  oneActive ++ [.line 0 "hello" t1] ++ joinAt 1 "Bob" t2 ++ settle 1

/-- Alice is active; Bob has registered and announced himself and is about to
start his replay loop. -/
def midJoin : List Event :=
  oneActive ++ [.gate, .accept t1, .line 1 "Bob\n" t1, .run 1 t1, .run 1 t1]

/-- The same, then Alice sends `x`, and Bob runs his replay. -/
def doubled : List Event :=
  midJoin ++ [.line 0 "x" t2, .run 1 t2] ++ settle 1

/-- Eleven connections are accepted before any of them registers; each sends a
name of its own, the first ten register. -/
def crowd : List Event :=
  (List.range 11).foldr (fun _ evs => Event.gate :: Event.accept t0 :: evs) [] ++
  (List.range 11).map (fun i => Event.line i (String.mk [Char.ofNat (97 + i), 'x', 'y'] ++ "\n") t0) ++
  (List.range 10).map (fun i => Event.run i t0)

/-! ## Vocabulary of the invariants -/

/-- The positions at which the goroutine is a key of `clients` (lines 117 to 176). -/
def Pc.registered : Pc → Bool
  | .announce => true
  | .history => true
  | .replay _ => true
  | .active => true
  | .rename _ => true
  | .renamed _ _ => true
  | .deregister => true
  | _ => false

/-- Every session wraps the connection that bears its handle. -/
def ConnOk (s : State) : Prop :=
  ∀ k, (s.client k).Conn = k

/-- A goroutine between its registration and its deregistration is a key of `clients`. -/
def RegOk (s : State) : Prop :=
  ∀ k, (s.pc k).registered = true → k ∈ s.clients

/-- Every key of `clients` is a goroutine between its registration and its
deregistration. -/
def MemOk (s : State) : Prop :=
  ∀ k, k ∈ s.clients → (s.pc k).registered = true

/-- How far a goroutine has come: before its replay (0 to 3), in it (4), after it (5). -/
def Pc.stage : Pc → Nat
  | .readName => 0
  | .register => 1
  | .announce => 2
  | .history => 3
  | .replay _ => 4
  | _ => 5

/-- The records the replay loop has still to visit. -/
def Pc.pending : Pc → List Message
  | .replay l => l
  | _ => []

/-- The moves of a goroutine from one position to the next, apart from those into
and inside the replay loop. -/
def Pc.next : Pc → Pc → Bool
  | .readName, .register => true
  | .readName, .closed => true
  | .register, .announce => true
  | .register, .closed => true
  | .announce, .history => true
  | .replay [], .active => true
  | .active, .rename _ => true
  | .active, .deregister => true
  | .rename _, .renamed _ _ => true
  | .renamed _ _, .active => true
  | .deregister, .farewell => true
  | .farewell, .closed => true
  | _, _ => false

/-- The effect of a step on the position and the replayed records of the session `k`. -/
def SessionStep (s s' : State) (ev : Event) (k : Nat) : Prop :=
  (s'.pc k = s.pc k ∧ s'.replayedTo k = s.replayedTo k) ∨
  (∃ now m rest, ev = Event.run k now ∧ s.pc k = Pc.replay (m :: rest) ∧
    s'.pc k = Pc.replay rest ∧ s'.messages = s.messages ∧
    (s'.client k).Name = (s.client k).Name ∧
    s'.replayedTo k =
      s.replayedTo k ++ if replaySends (s.client k).Name m = true then [m] else []) ∨
  (∃ now, ev = Event.run k now ∧ s.pc k = Pc.history ∧ s'.pc k = Pc.replay s.messages ∧
    s'.messages = s.messages ∧ (s'.client k).Name = (s.client k).Name ∧
    s'.replayedTo k = s.replayedTo k) ∨
  ((s.pc k).stage ≤ (s'.pc k).stage ∧ (s'.pc k).stage ≠ 4 ∧ (s.pc k).pending = [] ∧
    s'.replayedTo k = s.replayedTo k ∧ (s.pc k).next (s'.pc k) = true) ∨
  (k = s.sessions.length ∧ s'.pc k = Pc.readName ∧ s'.replayedTo k = s.replayedTo k)

/-- The records a connection received live form a subsequence of the store. -/
def LiveOk (s : State) : Prop :=
  ∀ k, List.Sublist (s.liveTo k) s.messages

/-- The records a connection received by replay, followed by those its replay
loop has still to visit, form a subsequence of the store. -/
def HistOk (s : State) : Prop :=
  ∀ k, List.Sublist (s.replayedTo k ++ (s.pc k).pending) s.messages

/-- A session that has not started its replay loop has been replayed nothing. -/
def FreshOk (s : State) : Prop :=
  ∀ k, (s.pc k).stage ≤ 3 → s.replayedTo k = []

/-- A connection that was never accepted has been replayed nothing. -/
def BoundOk (s : State) : Prop :=
  ∀ k, s.sessions.length ≤ k → s.replayedTo k = []

/-- The facts that hold in every reachable state and that the theorems below share. -/
structure Inv (s : State) : Prop where
  nodup : s.clients.Nodup
  conn : ConnOk s
  reg : RegOk s
  mem : MemOk s
  live : LiveOk s
  hist : HistOk s
  fresh : FreshOk s
  bound : BoundOk s

/-- The replay of the session `k`, begun under the name `n`, is on its way to
deliver exactly the records `L`. -/
def ReplayOk (n : String) (L : List Message) (k : Nat) (s : State) : Prop :=
  k < s.sessions.length ∧
  (((s.pc k).stage = 4 ∧ (s.client k).Name = n ∧
      s.replayedTo k ++ (s.pc k).pending.filter (replaySends n) = L) ∨
    ((s.pc k).stage = 5 ∧ s.replayedTo k = L))

/-- The replay of the session `k` has started (or is over) and draws on the
records `M` only. -/
def PastOk (M : List Message) (k : Nat) (s : State) : Prop :=
  k < s.sessions.length ∧ 4 ≤ (s.pc k).stage ∧
    List.Sublist (s.replayedTo k ++ (s.pc k).pending) M

/-- The record `m` is in the store and the session `k`, named `n` until its
replay is over, has not started its replay, or has `m` among the records
replayed to it or still to replay. -/
def AgainOk (n : String) (m : Message) (k : Nat) (s : State) : Prop :=
  k < s.sessions.length ∧ m ∈ s.messages ∧
    (((s.pc k = Pc.announce ∨ s.pc k = Pc.history) ∧ (s.client k).Name = n) ∨
     ((s.pc k).stage = 4 ∧ (s.client k).Name = n ∧
        m ∈ s.replayedTo k ++ (s.pc k).pending.filter (replaySends n)) ∨
     ((s.pc k).stage = 5 ∧ m ∈ s.replayedTo k))

set_option maxRecDepth 1000000

/-! ## The duplicate test -/

theorem isDuplicate_congr (s : State) (m m' : Message) (hn : m'.Name = m.Name)
    (ht : m'.Text = m.Text) : isDuplicate s m' = isDuplicate s m := by
  unfold isDuplicate
  rw [hn, ht]

theorem isDuplicate_after (s : State) (m m' : Message) (hn : m'.Name = m.Name)
    (ht : m'.Text = m.Text) (hd : isDuplicate s m = false) :
    isDuplicate (broadcastMessage s m) m' = true := by
  have h1 : (broadcastMessage s m).messages = s.messages ++ [m] := by
    simp [broadcastMessage, hd]
  unfold isDuplicate
  rw [h1]
  simp [hn, ht]

/-! ## Frame facts: what each primitive leaves alone -/

theorem lt_of_getElem? {α : Type} (l : List α) (h : Nat) (x : α) (hx : l[h]? = some x) :
    h < l.length := by
  by_contra hc
  simp [List.getElem?_eq_none (Nat.le_of_not_lt hc)] at hx

@[simp] theorem goto_clients (s : State) (h : Nat) (p : Pc) : (s.goto h p).clients = s.clients := by
  unfold State.goto; split <;> rfl

@[simp] theorem goto_messages (s : State) (h : Nat) (p : Pc) :
    (s.goto h p).messages = s.messages := by
  unfold State.goto; split <;> rfl

@[simp] theorem goto_log (s : State) (h : Nat) (p : Pc) : (s.goto h p).log = s.log := by
  unfold State.goto; split <;> rfl

@[simp] theorem goto_writes (s : State) (h : Nat) (p : Pc) : (s.goto h p).writes = s.writes := by
  unfold State.goto; split <;> rfl

@[simp] theorem goto_acceptor (s : State) (h : Nat) (p : Pc) :
    (s.goto h p).acceptor = s.acceptor := by
  unfold State.goto; split <;> rfl

@[simp] theorem goto_sessions_length (s : State) (h : Nat) (p : Pc) :
    (s.goto h p).sessions.length = s.sessions.length := by
  unfold State.goto; split <;> simp

@[simp] theorem goto_client (s : State) (h : Nat) (p : Pc) (k : Nat) :
    (s.goto h p).client k = s.client k := by
  unfold State.goto
  split
  · rename_i x hx
    have hlt := lt_of_getElem? _ _ _ hx
    by_cases hk : h = k
    · subst hk
      simp [State.client, hx, List.getElem?_set, hlt]
    · simp [State.client, List.getElem?_set, hk]
  · rfl

theorem goto_pc (s : State) (h : Nat) (p : Pc) (k : Nat) :
    (s.goto h p).pc k = if k = h ∧ h < s.sessions.length then p else s.pc k := by
  unfold State.goto
  split
  · rename_i x hx
    have hlt := lt_of_getElem? _ _ _ hx
    by_cases hk : h = k
    · subst hk
      simp [State.pc, List.getElem?_set, hlt]
    · have hk2 : ¬ k = h := fun e => hk e.symm
      simp [State.pc, List.getElem?_set, hk, hk2]
  · rename_i hx
    have hge : ¬ h < s.sessions.length := by
      intro hc
      simp [List.getElem?_eq_getElem hc] at hx
    simp [hge]

theorem lt_of_pc (s : State) (h : Nat) (hp : s.pc h ≠ .closed) : h < s.sessions.length := by
  by_contra hc
  apply hp
  simp [State.pc, List.getElem?_eq_none (Nat.le_of_not_lt hc)]

@[simp] theorem setName_clients (s : State) (h : Nat) (n : String) :
    (s.setName h n).clients = s.clients := by
  unfold State.setName; split <;> rfl

@[simp] theorem setName_messages (s : State) (h : Nat) (n : String) :
    (s.setName h n).messages = s.messages := by
  unfold State.setName; split <;> rfl

@[simp] theorem setName_log (s : State) (h : Nat) (n : String) : (s.setName h n).log = s.log := by
  unfold State.setName; split <;> rfl

@[simp] theorem setName_writes (s : State) (h : Nat) (n : String) :
    (s.setName h n).writes = s.writes := by
  unfold State.setName; split <;> rfl

@[simp] theorem setName_acceptor (s : State) (h : Nat) (n : String) :
    (s.setName h n).acceptor = s.acceptor := by
  unfold State.setName; split <;> rfl

@[simp] theorem setName_sessions_length (s : State) (h : Nat) (n : String) :
    (s.setName h n).sessions.length = s.sessions.length := by
  unfold State.setName; split <;> simp

@[simp] theorem setName_pc (s : State) (h : Nat) (n : String) (k : Nat) :
    (s.setName h n).pc k = s.pc k := by
  unfold State.setName
  split
  · rename_i x hx
    have hlt := lt_of_getElem? _ _ _ hx
    by_cases hk : h = k
    · subst hk
      simp [State.pc, hx, List.getElem?_set, hlt]
    · simp [State.pc, List.getElem?_set, hk]
  · rfl

theorem setName_client_ne (s : State) (h : Nat) (n : String) (k : Nat) (hk : k ≠ h) :
    (s.setName h n).client k = s.client k := by
  unfold State.setName
  split
  · have hk2 : ¬ h = k := fun e => hk e.symm
    simp [State.client, List.getElem?_set, hk2]
  · rfl

theorem setName_client_self (s : State) (h : Nat) (n : String) (hlt : h < s.sessions.length) :
    (s.setName h n).client h = { s.client h with Name := n } := by
  unfold State.setName
  simp [State.client, List.getElem?_eq_getElem hlt, List.getElem?_set, hlt]

@[simp] theorem setName_conn (s : State) (h : Nat) (n : String) (k : Nat) :
    ((s.setName h n).client k).Conn = (s.client k).Conn := by
  by_cases hk : k = h
  · subst hk
    by_cases hlt : k < s.sessions.length
    · rw [setName_client_self s k n hlt]
    · unfold State.setName
      simp [List.getElem?_eq_none (Nat.le_of_not_lt hlt)]
  · rw [setName_client_ne s h n k hk]

@[simp] theorem fprintf_sessions (s : State) (h : Nat) (t : String) :
    (s.fprintf h t).sessions = s.sessions := rfl

@[simp] theorem fprintf_clients (s : State) (h : Nat) (t : String) :
    (s.fprintf h t).clients = s.clients := rfl

@[simp] theorem fprintf_messages (s : State) (h : Nat) (t : String) :
    (s.fprintf h t).messages = s.messages := rfl

@[simp] theorem fprintf_log (s : State) (h : Nat) (t : String) : (s.fprintf h t).log = s.log := rfl

@[simp] theorem fprintf_acceptor (s : State) (h : Nat) (t : String) :
    (s.fprintf h t).acceptor = s.acceptor := rfl

@[simp] theorem fprintf_pc (s : State) (h : Nat) (t : String) (k : Nat) :
    (s.fprintf h t).pc k = s.pc k := rfl

@[simp] theorem fprintf_client (s : State) (h : Nat) (t : String) (k : Nat) :
    (s.fprintf h t).client k = s.client k := rfl

@[simp] theorem printf_sessions (s : State) (t : String) : (s.printf t).sessions = s.sessions := rfl

@[simp] theorem printf_clients (s : State) (t : String) : (s.printf t).clients = s.clients := rfl

@[simp] theorem printf_messages (s : State) (t : String) : (s.printf t).messages = s.messages := rfl

@[simp] theorem printf_writes (s : State) (t : String) : (s.printf t).writes = s.writes := rfl

@[simp] theorem printf_acceptor (s : State) (t : String) : (s.printf t).acceptor = s.acceptor := rfl

@[simp] theorem printf_pc (s : State) (t : String) (k : Nat) : (s.printf t).pc k = s.pc k := rfl

@[simp] theorem printf_client (s : State) (t : String) (k : Nat) :
    (s.printf t).client k = s.client k := rfl

@[simp] theorem broadcastMessage_sessions (s : State) (m : Message) :
    (broadcastMessage s m).sessions = s.sessions := by
  unfold broadcastMessage; split <;> rfl

@[simp] theorem broadcastMessage_clients (s : State) (m : Message) :
    (broadcastMessage s m).clients = s.clients := by
  unfold broadcastMessage; split <;> rfl

@[simp] theorem broadcastMessage_acceptor (s : State) (m : Message) :
    (broadcastMessage s m).acceptor = s.acceptor := by
  unfold broadcastMessage; split <;> rfl

@[simp] theorem broadcastMessage_pc (s : State) (m : Message) (k : Nat) :
    (broadcastMessage s m).pc k = s.pc k := by
  simp [State.pc]

@[simp] theorem broadcastMessage_client (s : State) (m : Message) (k : Nat) :
    (broadcastMessage s m).client k = s.client k := by
  simp [State.client]

theorem broadcastMessage_dup (s : State) (m : Message) (hd : isDuplicate s m = true) :
    broadcastMessage s m = s := by
  simp [broadcastMessage, hd]

theorem broadcastMessage_new (s : State) (m : Message) (hd : isDuplicate s m = false) :
    broadcastMessage s m =
      { s with
        messages := s.messages ++ [m]
        log := s.log ++ [logMessage m]
        writes := s.writes ++ s.clients.map (fun h => Write.live (s.client h).Conn m) } := by
  simp [broadcastMessage, hd]

/-! ## The registry under one step -/

theorem clients_step (s : State) (ev : Event) :
    (step s ev).clients = s.clients ∨
    (∃ h, s.clients.length < 10 ∧ h ∉ s.clients ∧ (step s ev).clients = s.clients ++ [h]) ∨
    (∃ h, (step s ev).clients = s.clients.filter (fun k => k != h)) := by
  cases ev with
  | gate =>
    left
    simp only [step, gateStep]
    split
    · rfl
    · split <;> rfl
  | accept now =>
    left
    simp only [step, acceptStep]
    split <;> rfl
  | acceptFail err =>
    left
    simp only [step, acceptFailStep]
    split <;> rfl
  | line h txt now =>
    left
    simp only [step]
    split
    · simp only [nameStep]
      split <;> simp
    · simp only [lineStep]
      split
      · rfl
      · split
        · split
          · simp
          · split <;> simp
        · simp
    · rfl
  | fail h err =>
    left
    simp only [step]
    split
    · simp
    · split <;> simp
    · rfl
  | run h now =>
    simp only [step, runStep]
    split
    · simp only [registerStep]
      split
      · left; simp
      · rename_i hlen
        by_cases hm : h ∈ s.clients
        · left; simp [hm]
        · right; left
          exact ⟨h, by omega, hm, by simp [hm]⟩
    · left; simp
    · left; simp
    · left; simp
    · left
      simp only [goto_clients]
      split <;> rfl
    · left; simp
    · left; simp
    · right; right
      exact ⟨h, by simp [deregisterStep]⟩
    · left; simp
    · left; rfl

theorem clients_nodup_step (s : State) (ev : Event) (hn : s.clients.Nodup) :
    (step s ev).clients.Nodup := by
  rcases clients_step s ev with h | ⟨h, _, hm, he⟩ | ⟨h, he⟩
  · rw [h]; exact hn
  · rw [he]
    exact List.Nodup.append hn (List.nodup_singleton h) (by simpa using hm)
  · rw [he]; exact hn.filter _

theorem clients_length_step (s : State) (ev : Event) (hn : s.clients.length ≤ 10) :
    (step s ev).clients.length ≤ 10 := by
  rcases clients_step s ev with h | ⟨h, hl, _, he⟩ | ⟨h, he⟩
  · rw [h]; exact hn
  · rw [he]; simp; omega
  · rw [he]
    exact le_trans (List.length_filter_le _ _) hn

theorem exec_append (s : State) (evs : List Event) (ev : Event) :
    exec s (evs ++ [ev]) = step (exec s evs) ev := by
  simp [exec, List.foldl_append]

/-! ## Handles and registration -/

theorem connOk_congr {s s' : State} (hs : s'.sessions = s.sessions) (hc : ConnOk s) :
    ConnOk s' := by
  intro k
  have := hc k
  simpa [State.client, hs] using this

theorem connOk_goto {s : State} (hc : ConnOk s) (h : Nat) (p : Pc) : ConnOk (s.goto h p) := by
  intro k
  simpa using hc k

theorem connOk_setName {s : State} (hc : ConnOk s) (h : Nat) (n : String) :
    ConnOk (s.setName h n) := by
  intro k
  simpa using hc k

theorem connOk_broadcast {s : State} (hc : ConnOk s) (m : Message) :
    ConnOk (broadcastMessage s m) :=
  connOk_congr (by simp) hc

theorem regOk_congr {s s' : State} (hs : s'.sessions = s.sessions) (hcl : s'.clients = s.clients)
    (hr : RegOk s) : RegOk s' := by
  intro k hk
  rw [hcl]
  apply hr k
  simpa [State.pc, hs] using hk

theorem regOk_goto {s : State} (hr : RegOk s) (h : Nat) (p : Pc)
    (hp : p.registered = true → h ∈ s.clients) : RegOk (s.goto h p) := by
  intro k hk
  rw [goto_pc] at hk
  rw [goto_clients]
  split at hk
  · rename_i hkh
    rw [hkh.1]
    exact hp hk
  · exact hr k hk

theorem regOk_setName {s : State} (hr : RegOk s) (h : Nat) (n : String) :
    RegOk (s.setName h n) := by
  intro k hk
  simpa using hr k (by simpa using hk)

theorem regOk_broadcast {s : State} (hr : RegOk s) (m : Message) :
    RegOk (broadcastMessage s m) :=
  regOk_congr (by simp) (by simp) hr

theorem client_append_new (s : State) (x : Session) (k : Nat) (hx : x.client.Conn = s.sessions.length)
    (hc : ConnOk s) : (match (s.sessions ++ [x])[k]? with
      | some y => y.client
      | none => { Name := "", Conn := k, Joined := ⟨0, 0, 0, 0, 0, 0⟩ }).Conn = k := by
  rcases Nat.lt_trichotomy k s.sessions.length with hlt | heq | hgt
  · rw [List.getElem?_append_left hlt]
    exact hc k
  · subst heq
    simp [hx]
  · have : (s.sessions ++ [x]).length ≤ k := by simp; omega
    rw [List.getElem?_eq_none this]

theorem pc_append_new (s : State) (x : Session) (k : Nat) :
    (match (s.sessions ++ [x])[k]? with
      | some y => y.pc
      | none => Pc.closed) = if k = s.sessions.length then x.pc else s.pc k := by
  rcases Nat.lt_trichotomy k s.sessions.length with hlt | heq | hgt
  · rw [List.getElem?_append_left hlt]
    simp [State.pc, Nat.ne_of_lt hlt]
  · subst heq
    simp
  · have h1 : (s.sessions ++ [x]).length ≤ k := by simp; omega
    have h2 : s.sessions.length ≤ k := by omega
    rw [List.getElem?_eq_none h1]
    simp [State.pc, List.getElem?_eq_none h2, Nat.ne_of_gt hgt]

theorem connOk_step (s : State) (ev : Event) (hc : ConnOk s) : ConnOk (step s ev) := by
  cases ev with
  | gate =>
    simp only [step, gateStep]
    split
    · exact hc
    · split <;> exact connOk_congr rfl hc
  | accept now =>
    simp only [step, acceptStep]
    split
    · exact hc
    · exact connOk_congr rfl hc
    · intro k
      exact client_append_new s _ k rfl hc
  | acceptFail err =>
    simp only [step, acceptFailStep]
    split
    · exact hc
    · exact connOk_congr rfl hc
  | line h txt now =>
    simp only [step]
    split
    · simp only [nameStep]
      split
      · exact connOk_congr rfl (connOk_setName hc _ _)
      · exact connOk_goto (connOk_setName hc _ _) _ _
    · simp only [lineStep]
      split
      · exact hc
      · split
        · split
          · exact connOk_congr rfl hc
          · split
            · exact connOk_congr rfl hc
            · exact connOk_goto hc _ _
        · exact connOk_broadcast hc _
    · exact hc
  | fail h err =>
    simp only [step]
    split
    · apply connOk_goto; exact connOk_congr rfl hc
    · split
      · apply connOk_goto; exact connOk_congr rfl hc
      · exact connOk_goto hc _ _
    · exact hc
  | run h now =>
    simp only [step, runStep]
    split
    · simp only [registerStep]
      split
      · apply connOk_goto; exact connOk_congr rfl hc
      · apply connOk_goto; exact connOk_congr rfl hc
    · exact connOk_goto (connOk_broadcast hc _) _ _
    · exact connOk_goto hc _ _
    · exact connOk_goto hc _ _
    · apply connOk_goto
      split
      · exact connOk_congr rfl hc
      · exact hc
    · exact connOk_goto (connOk_setName hc _ _) _ _
    · exact connOk_goto (connOk_broadcast hc _) _ _
    · simp only [deregisterStep]
      apply connOk_goto; exact connOk_congr rfl hc
    · exact connOk_goto (connOk_broadcast hc _) _ _
    · exact hc

theorem regOk_step (s : State) (ev : Event) (hr : RegOk s) : RegOk (step s ev) := by
  have nr : ∀ {p : Pc} {h : Nat} {t : State}, p.registered = false →
      p.registered = true → h ∈ t.clients := by
    intro p h t h1 h2
    rw [h1] at h2
    cases h2
  have own : ∀ {h : Nat} {p q : Pc}, s.pc h = p → p.registered = true →
      q.registered = true → h ∈ s.clients := by
    intro h p q h1 h2 _
    exact hr h (by rw [h1]; exact h2)
  cases ev with
  | gate =>
    simp only [step, gateStep]
    split
    · exact hr
    · split <;> exact regOk_congr rfl rfl hr
  | accept now =>
    simp only [step, acceptStep]
    split
    · exact hr
    · exact regOk_congr rfl rfl hr
    · intro k hk
      simp only [State.pc, State.fprintf] at hk
      rw [pc_append_new] at hk
      split at hk
      · cases hk
      · exact hr k hk
  | acceptFail err =>
    simp only [step, acceptFailStep]
    split
    · exact hr
    · exact regOk_congr rfl rfl hr
  | line h txt now =>
    simp only [step]
    split
    · simp only [nameStep]
      split
      · exact regOk_congr rfl rfl (regOk_setName hr _ _)
      · exact regOk_goto (regOk_setName hr _ _) _ _ (nr rfl)
    · rename_i hpc
      simp only [lineStep]
      split
      · exact hr
      · split
        · split
          · exact regOk_congr rfl rfl hr
          · split
            · exact regOk_congr rfl rfl hr
            · exact regOk_goto hr _ _ (own hpc rfl)
        · exact regOk_broadcast hr _
    · exact hr
  | fail h err =>
    simp only [step]
    split
    · apply regOk_goto
      · exact regOk_congr rfl rfl hr
      · exact nr rfl
    · rename_i hpc
      split
      · apply regOk_goto
        · exact regOk_congr rfl rfl hr
        · exact own hpc rfl
      · exact regOk_goto hr _ _ (own hpc rfl)
    · exact hr
  | run h now =>
    simp only [step, runStep]
    split
    · simp only [registerStep]
      split
      · apply regOk_goto
        · exact regOk_congr rfl rfl hr
        · exact nr rfl
      · apply regOk_goto
        · intro k hk
          have := hr k hk
          show k ∈ (if h ∈ s.clients then s.clients else s.clients ++ [h])
          split
          · exact this
          · exact List.mem_append_left _ this
        · intro _
          show h ∈ (if h ∈ s.clients then s.clients else s.clients ++ [h])
          split
          · assumption
          · simp
    · rename_i hpc
      exact regOk_goto (regOk_broadcast hr _) _ _ (by simpa using own hpc rfl)
    · rename_i hpc
      exact regOk_goto hr _ _ (own hpc rfl)
    · rename_i hpc
      exact regOk_goto hr _ _ (own hpc rfl)
    · rename_i msg rest hpc
      apply regOk_goto
      · split
        · exact regOk_congr rfl rfl hr
        · exact hr
      · have := own (q := Pc.active) hpc rfl rfl
        split <;> exact fun _ => this
    · rename_i hpc
      exact regOk_goto (regOk_setName hr _ _) _ _ (by simpa using own hpc rfl)
    · rename_i hpc
      exact regOk_goto (regOk_broadcast hr _) _ _ (by simpa using own hpc rfl)
    · rename_i hpc
      have hlt : h < s.sessions.length := lt_of_pc s h (by rw [hpc]; decide)
      intro k hk
      simp only [deregisterStep, goto_pc, goto_clients] at hk ⊢
      split at hk
      · cases hk
      · rename_i hne
        have hkh : k ≠ h := fun e => hne ⟨e, hlt⟩
        simp only [State.pc] at hk
        have := hr k hk
        simp [List.mem_filter, this, hkh]
    · exact regOk_goto (regOk_broadcast hr _) _ _ (nr rfl)
    · exact hr

theorem memOk_congr {s s' : State} (hs : s'.sessions = s.sessions) (hcl : s'.clients = s.clients)
    (hm : MemOk s) : MemOk s' := by
  intro k hk
  rw [hcl] at hk
  have := hm k hk
  simpa [State.pc, hs] using this

theorem memOk_goto {s : State} (hm : MemOk s) (h : Nat) (p : Pc)
    (hp : p.registered = true ∨ (s.pc h).registered = false) : MemOk (s.goto h p) := by
  intro k hk
  rw [goto_clients] at hk
  rw [goto_pc]
  split
  · rename_i hkh
    rcases hp with hp | hp
    · exact hp
    · have := hm k hk
      rw [hkh.1, hp] at this
      cases this
  · exact hm k hk

theorem memOk_setName {s : State} (hm : MemOk s) (h : Nat) (n : String) :
    MemOk (s.setName h n) := by
  intro k hk
  simpa using hm k (by simpa using hk)

theorem memOk_broadcast {s : State} (hm : MemOk s) (m : Message) :
    MemOk (broadcastMessage s m) :=
  memOk_congr (by simp) (by simp) hm

theorem memOk_step (s : State) (ev : Event) (hm : MemOk s) : MemOk (step s ev) := by
  cases ev with
  | gate =>
    simp only [step, gateStep]
    split
    · exact hm
    · split <;> exact memOk_congr rfl rfl hm
  | accept now =>
    simp only [step, acceptStep]
    split
    · exact hm
    · exact memOk_congr rfl rfl hm
    · intro k hk
      have hr := hm k hk
      have hlt : k < s.sessions.length := lt_of_pc s k (by
        intro hc
        rw [hc] at hr
        cases hr)
      simp only [State.pc, State.fprintf]
      rw [pc_append_new, if_neg (Nat.ne_of_lt hlt)]
      exact hr
  | acceptFail err =>
    simp only [step, acceptFailStep]
    split
    · exact hm
    · exact memOk_congr rfl rfl hm
  | line h txt now =>
    simp only [step]
    split
    · rename_i hpc
      simp only [nameStep]
      split
      · exact memOk_congr rfl rfl (memOk_setName hm _ _)
      · exact memOk_goto (memOk_setName hm _ _) _ _ (Or.inr (by simp [hpc, Pc.registered]))
    · simp only [lineStep]
      split
      · exact hm
      · split
        · split
          · exact memOk_congr rfl rfl hm
          · split
            · exact memOk_congr rfl rfl hm
            · exact memOk_goto hm _ _ (Or.inl rfl)
        · exact memOk_broadcast hm _
    · exact hm
  | fail h err =>
    simp only [step]
    split
    · rename_i hpc
      apply memOk_goto
      · exact memOk_congr rfl rfl hm
      · exact Or.inr (by simp [hpc, Pc.registered])
    · split
      · apply memOk_goto
        · exact memOk_congr rfl rfl hm
        · exact Or.inl rfl
      · exact memOk_goto hm _ _ (Or.inl rfl)
    · exact hm
  | run h now =>
    simp only [step, runStep]
    split
    · rename_i hpc
      simp only [registerStep]
      split
      · apply memOk_goto
        · exact memOk_congr rfl rfl hm
        · exact Or.inr (by simp [hpc, Pc.registered])
      · have hlt : h < s.sessions.length := lt_of_pc s h (by rw [hpc]; simp)
        intro k hk
        rw [goto_pc]
        by_cases hkh : k = h
        · subst hkh
          rw [if_pos ⟨rfl, hlt⟩]
          rfl
        · rw [if_neg (fun e => hkh e.1)]
          rw [goto_clients] at hk
          have hk' : k ∈ s.clients := by
            have hk2 : k ∈ (if h ∈ s.clients then s.clients else s.clients ++ [h]) := hk
            split at hk2
            · exact hk2
            · rcases List.mem_append.mp hk2 with h1 | h1
              · exact h1
              · exact absurd (List.mem_singleton.mp h1) hkh
          exact hm k hk'
    · exact memOk_goto (memOk_broadcast hm _) _ _ (Or.inl rfl)
    · exact memOk_goto hm _ _ (Or.inl rfl)
    · exact memOk_goto hm _ _ (Or.inl rfl)
    · apply memOk_goto
      · split
        · exact memOk_congr rfl rfl hm
        · exact hm
      · exact Or.inl rfl
    · exact memOk_goto (memOk_setName hm _ _) _ _ (Or.inl rfl)
    · exact memOk_goto (memOk_broadcast hm _) _ _ (Or.inl rfl)
    · intro k hk
      simp only [deregisterStep, goto_clients, List.mem_filter] at hk
      have hkh : k ≠ h := by simpa using hk.2
      simp only [deregisterStep]
      rw [goto_pc, if_neg (fun e => hkh e.1)]
      exact hm k hk.1
    · rename_i hpc
      exact memOk_goto (memOk_broadcast hm _) _ _ (Or.inr (by simp [hpc, Pc.registered]))
    · exact hm

/-! ## The store and the connections under one step -/

/-- What one step adds to the store and to the connections: nothing, one prompt
or error line, one replayed record, or one broadcast. -/
theorem step_effect (s : State) (ev : Event) :
    ((step s ev).messages = s.messages ∧ (step s ev).writes = s.writes) ∨
    ((step s ev).messages = s.messages ∧
      ∃ c t, (step s ev).writes = s.writes ++ [Write.text c t]) ∨
    ((step s ev).messages = s.messages ∧
      ∃ h now m rest, ev = Event.run h now ∧ s.pc h = Pc.replay (m :: rest) ∧
        replaySends (s.client h).Name m = true ∧
        (step s ev).writes = s.writes ++ [Write.replayed (s.client h).Conn m]) ∨
    (∃ m, (step s ev).messages = s.messages ++ [m] ∧
      (step s ev).writes = s.writes ++ s.clients.map (fun k => Write.live (s.client k).Conn m)) := by
  have bc : ∀ (m : Message) (h : Nat) (p : Pc),
      (((broadcastMessage s m).goto h p).messages = s.messages ∧
        ((broadcastMessage s m).goto h p).writes = s.writes) ∨
      (∃ m', ((broadcastMessage s m).goto h p).messages = s.messages ++ [m'] ∧
        ((broadcastMessage s m).goto h p).writes =
          s.writes ++ s.clients.map (fun k => Write.live (s.client k).Conn m')) := by
    intro m h p
    cases hd : isDuplicate s m with
    | true => left; simp [broadcastMessage_dup s m hd]
    | false => right; exact ⟨m, by simp [broadcastMessage_new s m hd]⟩
  cases ev with
  | gate =>
    left
    simp only [step, gateStep]
    split
    · exact ⟨rfl, rfl⟩
    · split <;> exact ⟨rfl, rfl⟩
  | accept now =>
    simp only [step, acceptStep]
    split
    · left; exact ⟨rfl, rfl⟩
    · left; exact ⟨rfl, rfl⟩
    · right; left
      exact ⟨rfl, _, _, rfl⟩
  | acceptFail err =>
    left
    simp only [step, acceptFailStep]
    split <;> exact ⟨rfl, rfl⟩
  | line h txt now =>
    simp only [step]
    split
    · simp only [nameStep]
      split
      · right; left
        exact ⟨by simp, (s.client h).Conn,
          "Username " ++ TrimSpace txt ++
            " is already taken. Please choose another.\n[ENTER ANOTHER NAME]: ",
          by simp [State.fprintf]⟩
      · left; simp
    · simp only [lineStep]
      split
      · left; exact ⟨rfl, rfl⟩
      · split
        · split
          · right; left; exact ⟨rfl, _, _, rfl⟩
          · split
            · right; left; exact ⟨rfl, _, _, rfl⟩
            · left; simp
        · cases hd : isDuplicate s
              { Timestamp := now, Name := (s.client h).Name, Text := TrimSpace txt } with
          | true => left; simp [broadcastMessage_dup s _ hd]
          | false =>
            right; right; right
            exact ⟨{ Timestamp := now, Name := (s.client h).Name, Text := TrimSpace txt },
              by simp [broadcastMessage_new s _ hd]⟩
    · left; exact ⟨rfl, rfl⟩
  | fail h err =>
    left
    simp only [step]
    split
    · simp
    · split <;> simp
    · exact ⟨rfl, rfl⟩
  | run h now =>
    simp only [step, runStep]
    split
    · left
      simp only [registerStep]
      split <;> simp
    · rcases bc { Timestamp := now, Name := (s.client h).Name, Text := joinedText } h .history with h1 | h1
      · left; exact h1
      · right; right; right; exact h1
    · left; simp
    · left; simp
    · rename_i msg rest hpc
      cases hk : replaySends (s.client h).Name msg with
      | true =>
        right; right; left
        exact ⟨by simp, h, now, msg, rest, rfl, hpc, hk, by simp⟩
      | false => left; simp
    · left; simp
    · rename_i oldName newName hpc
      rcases bc { Timestamp := now, Name := oldName, Text := "changed their name to " ++ newName } h
        .active with h1 | h1
      · left; exact h1
      · right; right; right; exact h1
    · left; simp [deregisterStep]
    · rcases bc { Timestamp := now, Name := (s.client h).Name, Text := leftText } h .closed with h1 | h1
      · left; exact h1
      · right; right; right; exact h1
    · left; exact ⟨rfl, rfl⟩

/-! ## One session under one step -/

theorem replayedTo_congr {s s' : State} (hw : s'.writes = s.writes) (k : Nat) :
    s'.replayedTo k = s.replayedTo k := by
  simp [State.replayedTo, hw]

@[simp] theorem replayedTo_goto (s : State) (h : Nat) (p : Pc) (k : Nat) :
    (s.goto h p).replayedTo k = s.replayedTo k :=
  replayedTo_congr (by simp) k

@[simp] theorem replayedTo_setName (s : State) (h : Nat) (n : String) (k : Nat) :
    (s.setName h n).replayedTo k = s.replayedTo k :=
  replayedTo_congr (by simp) k

@[simp] theorem replayedTo_printf (s : State) (t : String) (k : Nat) :
    (s.printf t).replayedTo k = s.replayedTo k :=
  replayedTo_congr rfl k

@[simp] theorem replayedTo_fprintf (s : State) (h : Nat) (t : String) (k : Nat) :
    (s.fprintf h t).replayedTo k = s.replayedTo k := by
  simp [State.replayedTo, State.fprintf, List.filterMap_append]

@[simp] theorem replayedTo_broadcast (s : State) (m : Message) (k : Nat) :
    (broadcastMessage s m).replayedTo k = s.replayedTo k := by
  cases hd : isDuplicate s m with
  | true => rw [broadcastMessage_dup s m hd]
  | false =>
    rw [broadcastMessage_new s m hd]
    simp [State.replayedTo, List.filterMap_append]

theorem replayedTo_write (s : State) (c : Nat) (m : Message) (k : Nat) :
    State.replayedTo { s with writes := s.writes ++ [Write.replayed c m] } k =
      s.replayedTo k ++ if c = k then [m] else [] := by
  simp only [State.replayedTo, List.filterMap_append]
  congr 1
  by_cases hc : c = k <;> simp [hc]

theorem SessionStep.idle (s : State) (ev : Event) (k : Nat) : SessionStep s s ev k :=
  Or.inl ⟨rfl, rfl⟩

theorem SessionStep.same {s s' : State} (ev : Event) (k : Nat) (hs : s'.sessions = s.sessions)
    (hw : s'.replayedTo k = s.replayedTo k) : SessionStep s s' ev k :=
  Or.inl ⟨by simp [State.pc, hs], hw⟩

theorem SessionStep.goto {s X : State} (ev : Event) (h k : Nat) (p : Pc)
    (hpc : ∀ j, X.pc j = s.pc j) (hw : X.replayedTo k = s.replayedTo k)
    (hp : (s.pc h).stage ≤ p.stage ∧ p.stage ≠ 4 ∧ (s.pc h).pending = [] ∧
      (s.pc h).next p = true) :
    SessionStep s (X.goto h p) ev k := by
  by_cases hk : k = h ∧ h < X.sessions.length
  · obtain ⟨rfl, hlt⟩ := hk
    right; right; right; left
    have : (X.goto k p).pc k = p := by rw [goto_pc, if_pos ⟨rfl, hlt⟩]
    rw [this]
    exact ⟨hp.1, hp.2.1, hp.2.2.1, by simpa using hw, hp.2.2.2⟩
  · left
    refine ⟨?_, by simpa using hw⟩
    rw [goto_pc, if_neg hk, hpc]

theorem session_step (s : State) (ev : Event) (k : Nat) (hc : ConnOk s) :
    SessionStep s (step s ev) ev k := by
  cases ev with
  | gate =>
    simp only [step, gateStep]
    split
    · exact SessionStep.idle s _ k
    · split <;> exact SessionStep.same _ k rfl (replayedTo_congr rfl k)
  | accept now =>
    simp only [step, acceptStep]
    split
    · exact SessionStep.idle s _ k
    · exact SessionStep.same _ k rfl (replayedTo_congr rfl k)
    · by_cases hk : k = s.sessions.length
      · right; right; right; right
        refine ⟨hk, ?_, ?_⟩
        · simp only [State.pc, State.fprintf]
          rw [pc_append_new, if_pos hk]
        · rw [replayedTo_fprintf]
          exact replayedTo_congr rfl k
      · left
        refine ⟨?_, ?_⟩
        · simp only [State.pc, State.fprintf]
          rw [pc_append_new, if_neg hk]
          rfl
        · rw [replayedTo_fprintf]
          exact replayedTo_congr rfl k
  | acceptFail err =>
    simp only [step, acceptFailStep]
    split
    · exact SessionStep.idle s _ k
    · exact SessionStep.same _ k rfl (replayedTo_congr rfl k)
  | line h txt now =>
    simp only [step]
    split
    · rename_i hpc
      simp only [nameStep]
      split
      · exact Or.inl ⟨by simp, by simp⟩
      · exact SessionStep.goto _ h k _ (by simp) (by simp) (by rw [hpc]; simp [Pc.stage, Pc.pending, Pc.next])
    · rename_i hpc
      simp only [lineStep]
      split
      · exact SessionStep.idle s _ k
      · split
        · split
          · exact Or.inl ⟨by simp, by simp⟩
          · split
            · exact Or.inl ⟨by simp, by simp⟩
            · exact SessionStep.goto _ h k _ (fun _ => rfl) rfl (by rw [hpc]; simp [Pc.stage, Pc.pending, Pc.next])
        · exact Or.inl ⟨by simp, by simp⟩
    · exact SessionStep.idle s _ k
  | fail h err =>
    simp only [step]
    split
    · rename_i hpc
      exact SessionStep.goto _ h k _ (by simp) (by simp) (by rw [hpc]; simp [Pc.stage, Pc.pending, Pc.next])
    · rename_i hpc
      split
      · exact SessionStep.goto _ h k _ (by simp) (by simp) (by rw [hpc]; simp [Pc.stage, Pc.pending, Pc.next])
      · exact SessionStep.goto _ h k _ (fun _ => rfl) rfl (by rw [hpc]; simp [Pc.stage, Pc.pending, Pc.next])
    · exact SessionStep.idle s _ k
  | run h now =>
    simp only [step, runStep]
    split
    · rename_i hpc
      simp only [registerStep]
      split
      · exact SessionStep.goto _ h k _ (by simp) (by simp) (by rw [hpc]; simp [Pc.stage, Pc.pending, Pc.next])
      · exact SessionStep.goto _ h k _ (fun _ => rfl) (replayedTo_congr rfl k)
          (by rw [hpc]; simp [Pc.stage, Pc.pending, Pc.next])
    · rename_i hpc
      exact SessionStep.goto _ h k _ (by simp) (by simp) (by rw [hpc]; simp [Pc.stage, Pc.pending, Pc.next])
    · rename_i hpc
      have hlt : h < s.sessions.length := lt_of_pc s h (by rw [hpc]; simp)
      by_cases hk : k = h
      · subst hk
        right; right; left
        exact ⟨now, rfl, hpc, by simp [goto_pc, hlt], by simp, by simp, by simp⟩
      · left
        exact ⟨by simp [goto_pc, hk], by simp⟩
    · rename_i hpc
      exact SessionStep.goto _ h k _ (fun _ => rfl) rfl (by rw [hpc]; simp [Pc.stage, Pc.pending, Pc.next])
    · rename_i msg rest hpc
      have hlt : h < s.sessions.length := lt_of_pc s h (by rw [hpc]; simp)
      by_cases hk : k = h
      · subst hk
        right; left
        refine ⟨now, msg, rest, rfl, hpc, ?_, ?_, ?_, ?_⟩
        · split <;> simp [goto_pc, hlt]
        · split <;> simp
        · split
          · simp; rfl
          · simp
        · split
          · rw [replayedTo_goto, replayedTo_write, hc k]
            simp
          · simp
      · left
        have hkc : ¬ (s.client h).Conn = k := by
          rw [hc h]
          exact fun e => hk e.symm
        split
        · refine ⟨?_, ?_⟩
          · rw [goto_pc]
            simp [hk]
            rfl
          · rw [replayedTo_goto, replayedTo_write]
            simp [hkc]
        · exact ⟨by simp [goto_pc, hk], by simp⟩
    · rename_i hpc
      exact SessionStep.goto _ h k _ (by simp) (by simp) (by rw [hpc]; simp [Pc.stage, Pc.pending, Pc.next])
    · rename_i hpc
      exact SessionStep.goto _ h k _ (by simp) (by simp) (by rw [hpc]; simp [Pc.stage, Pc.pending, Pc.next])
    · rename_i hpc
      simp only [deregisterStep]
      exact SessionStep.goto _ h k _ (fun _ => rfl) (replayedTo_congr rfl k)
        (by rw [hpc]; simp [Pc.stage, Pc.pending, Pc.next])
    · rename_i hpc
      exact SessionStep.goto _ h k _ (by simp) (by simp) (by rw [hpc]; simp [Pc.stage, Pc.pending, Pc.next])
    · exact SessionStep.idle s _ k

theorem client_append_name (s : State) (x : Session) (hx : x.client.Name = "") (k : Nat) :
    (match (s.sessions ++ [x])[k]? with
      | some y => y.client
      | none => ({ Name := "", Conn := k, Joined := ⟨0, 0, 0, 0, 0, 0⟩ } : Client)).Name
      = (s.client k).Name := by
  rcases Nat.lt_trichotomy k s.sessions.length with hlt | heq | hgt
  · rw [List.getElem?_append_left hlt]
    rfl
  · subst heq
    simp [State.client, hx]
  · have h1 : (s.sessions ++ [x]).length ≤ k := by simp; omega
    have h2 : s.sessions.length ≤ k := by omega
    rw [List.getElem?_eq_none h1]
    simp [State.client, List.getElem?_eq_none h2]

/-- A step changes the name of a session only at the assignments of lines 96,
106 and 155. -/
theorem name_step (s : State) (ev : Event) (k : Nat) :
    ((step s ev).client k).Name = (s.client k).Name ∨ s.pc k = Pc.readName ∨
      ∃ n, s.pc k = Pc.rename n := by
  have sn : ∀ (h : Nat) (n : String) (X : State), (∀ j, X.client j = (s.setName h n).client j) →
      s.pc h = Pc.readName ∨ (∃ n, s.pc h = Pc.rename n) →
      (X.client k).Name = (s.client k).Name ∨ s.pc k = Pc.readName ∨
        ∃ n, s.pc k = Pc.rename n := by
    intro h n X hX hp
    by_cases hk : k = h
    · subst hk
      exact Or.inr hp
    · left
      rw [hX, setName_client_ne s h n k hk]
  cases ev with
  | gate =>
    left
    simp only [step, gateStep]
    split
    · rfl
    · split <;> rfl
  | accept now =>
    left
    simp only [step, acceptStep]
    split
    · rfl
    · rfl
    · exact client_append_name s _ rfl k
  | acceptFail err =>
    left
    simp only [step, acceptFailStep]
    split <;> rfl
  | line h txt now =>
    simp only [step]
    split
    · rename_i hpc
      simp only [nameStep]
      split
      · exact sn h (TrimSpace txt) _ (fun j => by simp) (Or.inl hpc)
      · exact sn h (TrimSpace txt) _ (fun j => by simp) (Or.inl hpc)
    · left
      simp only [lineStep]
      split
      · rfl
      · split
        · split
          · rfl
          · split
            · rfl
            · simp
        · simp
    · left; rfl
  | fail h err =>
    left
    simp only [step]
    split
    · simp
    · split <;> simp
    · rfl
  | run h now =>
    simp only [step, runStep]
    split
    · left
      simp only [registerStep]
      split
      · simp
      · rw [goto_client]; rfl
    · left; simp
    · left; simp
    · left; simp
    · left
      split
      · rw [goto_client]; rfl
      · simp
    · rename_i newName hpc
      exact sn h newName _ (fun j => by simp) (Or.inr ⟨newName, hpc⟩)
    · left; simp
    · left; simp only [deregisterStep]; rw [goto_client]; rfl
    · left; simp
    · left; rfl

theorem messages_step (s : State) (ev : Event) : ∃ l, (step s ev).messages = s.messages ++ l := by
  rcases step_effect s ev with ⟨h, _⟩ | ⟨h, _⟩ | ⟨h, _⟩ | ⟨m, h, _⟩
  · exact ⟨[], by simp [h]⟩
  · exact ⟨[], by simp [h]⟩
  · exact ⟨[], by simp [h]⟩
  · exact ⟨[m], h⟩

theorem length_step (s : State) (ev : Event) :
    s.sessions.length ≤ (step s ev).sessions.length := by
  cases ev with
  | gate =>
    simp only [step, gateStep]
    split
    · exact le_refl _
    · split <;> exact le_refl _
  | accept now =>
    simp only [step, acceptStep]
    split
    · exact le_refl _
    · exact le_refl _
    · simp [State.fprintf]
  | acceptFail err =>
    simp only [step, acceptFailStep]
    split <;> exact le_refl _
  | line h txt now =>
    simp only [step]
    split
    · simp only [nameStep]
      split <;> simp
    · simp only [lineStep]
      split
      · exact le_refl _
      · split
        · split
          · exact le_refl _
          · split
            · exact le_refl _
            · simp
        · simp
    · exact le_refl _
  | fail h err =>
    simp only [step]
    split
    · simp
    · split <;> simp
    · exact le_refl _
  | run h now =>
    simp only [step, runStep]
    split
    · simp only [registerStep]
      split <;> simp
    · simp
    · simp
    · simp
    · split <;> simp
    · simp
    · simp
    · simp [deregisterStep]
    · simp
    · exact le_refl _

/-! ## Order of delivery -/

theorem liveTo_congr {s s' : State} (hw : s'.writes = s.writes) (k : Nat) :
    s'.liveTo k = s.liveTo k := by
  simp [State.liveTo, hw]

theorem liveTo_fanout (l : List Nat) (hn : l.Nodup) (m : Message) (k : Nat) :
    (l.map fun j => Write.live j m).filterMap (fun w =>
        match w with
        | .live c msg => if c = k then some msg else none
        | _ => none) =
      if k ∈ l then [m] else [] := by
  induction l with
  | nil => simp
  | cons a l ih =>
    have hn' := List.nodup_cons.mp hn
    rw [List.map_cons, List.filterMap_cons]
    by_cases hak : a = k
    · subst hak
      simp [ih hn'.2, hn'.1]
    · have hka : ¬ k = a := fun e => hak e.symm
      simp [ih hn'.2, hak, hka]

/-- What one step adds to the records a connection received live: nothing, or
the record the step appended to the store, once, when the connection is
registered. -/
theorem liveTo_step (s : State) (ev : Event) (k : Nat) (hn : s.clients.Nodup) (hc : ConnOk s) :
    ((step s ev).messages = s.messages ∧ (step s ev).liveTo k = s.liveTo k) ∨
    (∃ m, (step s ev).messages = s.messages ++ [m] ∧
      (step s ev).liveTo k = s.liveTo k ++ if k ∈ s.clients then [m] else []) := by
  rcases step_effect s ev with ⟨h1, h2⟩ | ⟨h1, c, t, h2⟩ | ⟨h1, h, now, m, rest, _, _, _, h2⟩ |
    ⟨m, h1, h2⟩
  · exact Or.inl ⟨h1, liveTo_congr h2 k⟩
  · exact Or.inl ⟨h1, by simp [State.liveTo, h2, List.filterMap_append]⟩
  · exact Or.inl ⟨h1, by simp [State.liveTo, h2, List.filterMap_append]⟩
  · right
    refine ⟨m, h1, ?_⟩
    have hmap : (s.clients.map fun j => Write.live (s.client j).Conn m) =
        s.clients.map fun j => Write.live j m := by
      apply List.map_congr_left
      intro j _
      rw [hc j]
    simp only [State.liveTo, h2, List.filterMap_append, hmap]
    rw [liveTo_fanout s.clients hn m k]

theorem liveOk_step (s : State) (ev : Event) (hn : s.clients.Nodup) (hc : ConnOk s)
    (hl : LiveOk s) : LiveOk (step s ev) := by
  intro k
  rcases liveTo_step s ev k hn hc with ⟨h1, h2⟩ | ⟨m, h1, h2⟩
  · rw [h1, h2]
    exact hl k
  · rw [h1, h2]
    apply List.Sublist.append (hl k)
    split
    · exact List.Sublist.refl _
    · exact List.nil_sublist _

theorem pending_of_stage {p : Pc} (hp : p.stage ≠ 4) : p.pending = [] := by
  cases p <;> simp_all [Pc.stage, Pc.pending]

theorem histOk_step (s : State) (ev : Event) (hc : ConnOk s) (hh : HistOk s) (hf : FreshOk s)
    (hb : BoundOk s) : HistOk (step s ev) := by
  intro k
  obtain ⟨l, hl⟩ := messages_step s ev
  have grow : List.Sublist s.messages (step s ev).messages := by
    rw [hl]
    exact List.sublist_append_left _ _
  rcases session_step s ev k hc with ⟨h1, h2⟩ | ⟨now, m, rest, _, hpc, h1, hm, _, h2⟩ |
    ⟨now, _, hpc, h1, hm, _, h2⟩ | ⟨_, h1, _, h2, _⟩ | ⟨hk, h1, h2⟩
  · rw [h1, h2]
    exact (hh k).trans grow
  · have := hh k
    rw [hpc] at this
    rw [h1, h2, hm]
    refine List.Sublist.trans ?_ this
    simp only [Pc.pending, List.append_assoc]
    apply List.Sublist.append (List.Sublist.refl _)
    split
    · exact List.Sublist.refl _
    · exact List.sublist_cons_self _ _
  · rw [h1, h2, hm, hf k (by rw [hpc]; simp [Pc.stage])]
    simp [Pc.pending]
  · rw [pending_of_stage h1, h2, List.append_nil]
    exact ((List.sublist_append_left _ _).trans (hh k)).trans grow
  · rw [h1, h2, hb k (by omega)]
    simp [Pc.pending]

theorem freshOk_step (s : State) (ev : Event) (hc : ConnOk s) (hf : FreshOk s)
    (hb : BoundOk s) : FreshOk (step s ev) := by
  intro k hk
  rcases session_step s ev k hc with ⟨h1, h2⟩ | ⟨now, m, rest, _, hpc, h1, hm, _, h2⟩ |
    ⟨now, _, hpc, h1, hm, _, h2⟩ | ⟨h0, h1, _, h2, _⟩ | ⟨hk', h1, h2⟩
  · rw [h2]
    exact hf k (by rw [← h1]; exact hk)
  · rw [h1] at hk
    simp [Pc.stage] at hk
  · rw [h1] at hk
    simp [Pc.stage] at hk
  · rw [h2]
    exact hf k (by omega)
  · rw [h2]
    exact hb k (by omega)

theorem boundOk_step (s : State) (ev : Event) (hc : ConnOk s) (hb : BoundOk s) :
    BoundOk (step s ev) := by
  intro k hk
  have hlen := length_step s ev
  have hk0 : s.sessions.length ≤ k := le_trans hlen hk
  have hcl : s.pc k = Pc.closed := by
    simp [State.pc, List.getElem?_eq_none hk0]
  rcases session_step s ev k hc with ⟨h1, h2⟩ | ⟨now, m, rest, _, hpc, h1, hm, _, h2⟩ |
    ⟨now, _, hpc, h1, hm, _, h2⟩ | ⟨h0, h1, _, h2, _⟩ | ⟨hk', h1, h2⟩
  · rw [h2]; exact hb k hk0
  · rw [hcl] at hpc; cases hpc
  · rw [hcl] at hpc; cases hpc
  · rw [h2]; exact hb k hk0
  · rw [h2]; exact hb k hk0

/-! ## The invariant -/

theorem inv_init : Inv init where
  nodup := List.nodup_nil
  conn := fun k => by simp [State.client, init]
  reg := fun k hk => by simp [State.pc, init, Pc.registered] at hk
  mem := fun k hk => by simp [init] at hk
  live := fun k => by simp [State.liveTo, init]
  hist := fun k => by simp [State.replayedTo, State.pc, Pc.pending, init]
  fresh := fun k _ => by simp [State.replayedTo, init]
  bound := fun k _ => by simp [State.replayedTo, init]

theorem inv_step (s : State) (ev : Event) (hi : Inv s) : Inv (step s ev) where
  nodup := clients_nodup_step s ev hi.nodup
  conn := connOk_step s ev hi.conn
  reg := regOk_step s ev hi.reg
  mem := memOk_step s ev hi.mem
  live := liveOk_step s ev hi.nodup hi.conn hi.live
  hist := histOk_step s ev hi.conn hi.hist hi.fresh hi.bound
  fresh := freshOk_step s ev hi.conn hi.fresh hi.bound
  bound := boundOk_step s ev hi.conn hi.bound

theorem inv_exec (s : State) (evs : List Event) (hi : Inv s) : Inv (exec s evs) := by
  induction evs using List.reverseRecOn with
  | nil => exact hi
  | append_singleton evs ev ih =>
    rw [exec_append]
    exact inv_step _ ev ih

theorem inv_reachable {s : State} (hs : Reachable s) : Inv s := by
  obtain ⟨evs, rfl⟩ := hs
  exact inv_exec init evs inv_init

theorem fanout_filter (l : List Nat) (hn : l.Nodup) (m : Message) (c : Nat) :
    (l.map fun k => Write.live k m).filter (fun w => w.conn == c) =
      if c ∈ l then [Write.live c m] else [] := by
  induction l with
  | nil => simp
  | cons a l ih =>
    have hn' := List.nodup_cons.mp hn
    have hconn : (Write.live a m).conn = a := rfl
    rw [List.map_cons, List.filter_cons, ih hn'.2, hconn]
    by_cases hac : a = c
    · subst hac
      simp [hn'.1]
    · have hca : ¬ c = a := fun e => hac e.symm
      simp [hac, hca]

theorem stream_broadcast (s : State) (hi : Inv s) (m : Message) (hd : isDuplicate s m = false)
    (c : Nat) :
    (broadcastMessage s m).stream c =
      s.stream c ++ if c ∈ s.clients then [sendMessageToClient m] else [] := by
  have hmap : (s.clients.map fun k => Write.live (s.client k).Conn m) =
      s.clients.map fun k => Write.live k m := by
    apply List.map_congr_left
    intro k _
    rw [hi.conn k]
  rw [broadcastMessage_new s m hd]
  simp only [State.stream, List.filter_append, List.map_append, hmap,
    fanout_filter s.clients hi.nodup m c]
  split <;> simp [Write.bytes]

/-! ## The replay loop under every schedule -/

theorem Pc.stage_le (p : Pc) : p.stage ≤ 5 := by
  cases p <;> simp [Pc.stage]

theorem replayOk_step (n : String) (L : List Message) (k : Nat) (s : State) (ev : Event)
    (hc : ConnOk s) (hr : ReplayOk n L k s) : ReplayOk n L k (step s ev) := by
  obtain ⟨hlt, hr⟩ := hr
  refine ⟨lt_of_lt_of_le hlt (length_step s ev), ?_⟩
  have hname := name_step s ev k
  rcases session_step s ev k hc with ⟨h1, h2⟩ | ⟨now, m, rest, _, hpc, h1, hm, hn, h2⟩ |
    ⟨now, _, hpc, h1, hm, _, h2⟩ | ⟨h0, h1, hp, h2, _⟩ | ⟨hk', h1, h2⟩
  · rcases hr with ⟨hs, hn, hl⟩ | ⟨hs, hl⟩
    · left
      refine ⟨by rw [h1]; exact hs, ?_, by rw [h1, h2]; exact hl⟩
      rcases hname with h | h | ⟨x, h⟩
      · rw [h]; exact hn
      · rw [h] at hs; simp [Pc.stage] at hs
      · rw [h] at hs; simp [Pc.stage] at hs
    · right
      exact ⟨by rw [h1]; exact hs, by rw [h2]; exact hl⟩
  · rcases hr with ⟨hs, hn', hl⟩ | ⟨hs, hl⟩
    · left
      refine ⟨by rw [h1]; simp [Pc.stage], by rw [hn]; exact hn', ?_⟩
      rw [h1, h2, ← hl, hpc, hn']
      simp only [Pc.pending, List.filter_cons, List.append_assoc]
      congr 1
      split <;> simp
    · rw [hpc] at hs
      simp [Pc.stage] at hs
  · rcases hr with ⟨hs, _, _⟩ | ⟨hs, _⟩ <;>
    · rw [hpc] at hs
      simp [Pc.stage] at hs
  · have h5 := Pc.stage_le ((step s ev).pc k)
    rcases hr with ⟨hs, _, hl⟩ | ⟨hs, hl⟩
    · right
      refine ⟨by omega, ?_⟩
      rw [h2, ← hl, hp]
      simp
    · right
      exact ⟨by omega, by rw [h2]; exact hl⟩
  · omega

theorem replayOk_exec (n : String) (L : List Message) (k : Nat) (s : State) (evs : List Event)
    (hi : Inv s) (hr : ReplayOk n L k s) : ReplayOk n L k (exec s evs) := by
  induction evs using List.reverseRecOn with
  | nil => exact hr
  | append_singleton evs ev ih =>
    rw [exec_append]
    exact replayOk_step n L k _ ev (inv_exec s evs hi).conn ih

/-! ## A record and the replays that follow its broadcast -/

theorem pastOk_step (M : List Message) (k : Nat) (s : State) (ev : Event) (hc : ConnOk s)
    (hp : PastOk M k s) : PastOk M k (step s ev) := by
  obtain ⟨hlt, hst, hsub⟩ := hp
  refine ⟨lt_of_lt_of_le hlt (length_step s ev), ?_⟩
  rcases session_step s ev k hc with ⟨h1, h2⟩ | ⟨now, m, rest, _, hpc, h1, _, _, h2⟩ |
    ⟨now, _, hpc, _, _, _, _⟩ | ⟨h0, h1, hp0, h2, _⟩ | ⟨hk', _, _⟩
  · rw [h1, h2]
    exact ⟨hst, hsub⟩
  · rw [h1, h2]
    refine ⟨by simp [Pc.stage], ?_⟩
    rw [hpc] at hsub
    refine List.Sublist.trans ?_ hsub
    simp only [Pc.pending, List.append_assoc]
    apply List.Sublist.append (List.Sublist.refl _)
    split
    · exact List.Sublist.refl _
    · exact List.sublist_cons_self _ _
  · rw [hpc] at hst
    simp [Pc.stage] at hst
  · refine ⟨le_trans hst h0, ?_⟩
    rw [pending_of_stage h1, h2]
    rw [hp0] at hsub
    exact hsub
  · omega

theorem pastOk_exec (M : List Message) (k : Nat) (s : State) (evs : List Event) (hi : Inv s)
    (hp : PastOk M k s) : PastOk M k (exec s evs) := by
  induction evs using List.reverseRecOn with
  | nil => exact hp
  | append_singleton evs ev ih =>
    rw [exec_append]
    exact pastOk_step M k _ ev (inv_exec s evs hi).conn ih

theorem next_announce {p : Pc} (h : Pc.announce.next p = true) : p = Pc.history := by
  cases p <;> simp_all [Pc.next]

theorem next_history {p : Pc} (h : Pc.history.next p = true) : False := by
  cases p <;> simp_all [Pc.next]

theorem againOk_step (n : String) (m : Message) (k : Nat) (s : State) (ev : Event)
    (hc : ConnOk s) (hkeep : replaySends n m = true) (ha : AgainOk n m k s) :
    AgainOk n m k (step s ev) := by
  obtain ⟨hlt, hmem, ha⟩ := ha
  obtain ⟨l, hl⟩ := messages_step s ev
  have hmem' : m ∈ (step s ev).messages := by
    rw [hl]
    exact List.mem_append_left _ hmem
  refine ⟨lt_of_lt_of_le hlt (length_step s ev), hmem', ?_⟩
  have hname := name_step s ev k
  have h5 := Pc.stage_le ((step s ev).pc k)
  rcases session_step s ev k hc with ⟨h1, h2⟩ | ⟨now, m0, rest, _, hpc, h1, _, hn, h2⟩ |
    ⟨now, _, hpc, h1, hm, hn, h2⟩ | ⟨h0, h1, hp0, h2, hnx⟩ | ⟨hk', _, _⟩
  · rcases ha with ⟨hp, hn⟩ | ⟨hs, hn, hin⟩ | ⟨hs, hin⟩
    · left
      refine ⟨by rw [h1]; exact hp, ?_⟩
      rcases hname with h | h | ⟨x, h⟩
      · rw [h]; exact hn
      · rcases hp with hp | hp <;> rw [hp] at h <;> cases h
      · rcases hp with hp | hp <;> rw [hp] at h <;> cases h
    · right; left
      refine ⟨by rw [h1]; exact hs, ?_, by rw [h1, h2]; exact hin⟩
      rcases hname with h | h | ⟨x, h⟩
      · rw [h]; exact hn
      · rw [h] at hs; simp [Pc.stage] at hs
      · rw [h] at hs; simp [Pc.stage] at hs
    · right; right
      exact ⟨by rw [h1]; exact hs, by rw [h2]; exact hin⟩
  · rcases ha with ⟨hp, _⟩ | ⟨hs, hn', hin⟩ | ⟨hs, _⟩
    · rcases hp with hp | hp <;> rw [hp] at hpc <;> cases hpc
    · right; left
      refine ⟨by rw [h1]; simp [Pc.stage], by rw [hn]; exact hn', ?_⟩
      have heq : (step s ev).replayedTo k ++ ((step s ev).pc k).pending.filter (replaySends n) =
          s.replayedTo k ++ (s.pc k).pending.filter (replaySends n) := by
        rw [h1, h2, hpc, hn']
        simp only [Pc.pending, List.filter_cons, List.append_assoc]
        congr 1
        split <;> simp
      rw [heq]
      exact hin
    · rw [hpc] at hs
      simp [Pc.stage] at hs
  · rcases ha with ⟨_, hn'⟩ | ⟨hs, _, _⟩ | ⟨hs, _⟩
    · right; left
      refine ⟨by rw [h1]; simp [Pc.stage], by rw [hn]; exact hn', ?_⟩
      rw [h1, h2]
      apply List.mem_append_right
      simp only [Pc.pending, List.mem_filter]
      exact ⟨hmem, hkeep⟩
    · rw [hpc] at hs
      simp [Pc.stage] at hs
    · rw [hpc] at hs
      simp [Pc.stage] at hs
  · rcases ha with ⟨hp, hn⟩ | ⟨hs, _, hin⟩ | ⟨hs, hin⟩
    · rcases hp with hp | hp
      · left
        rw [hp] at hnx
        refine ⟨Or.inr (next_announce hnx), ?_⟩
        rcases hname with h | h | ⟨x, h⟩
        · rw [h]; exact hn
        · rw [hp] at h; cases h
        · rw [hp] at h; cases h
      · rw [hp] at hnx
        exact absurd hnx (fun e => next_history e)
    · right; right
      refine ⟨by omega, ?_⟩
      rw [h2]
      rw [hp0] at hin
      simpa using hin
    · right; right
      exact ⟨by omega, by rw [h2]; exact hin⟩
  · omega

theorem againOk_exec (n : String) (m : Message) (k : Nat) (s : State) (evs : List Event)
    (hi : Inv s) (hkeep : replaySends n m = true) (ha : AgainOk n m k s) :
    AgainOk n m k (exec s evs) := by
  induction evs using List.reverseRecOn with
  | nil => exact ha
  | append_singleton evs ev ih =>
    rw [exec_append]
    exact againOk_step n m k _ ev (inv_exec s evs hi).conn hkeep ih

theorem liveTo_exec (s : State) (evs : List Event) (hi : Inv s) (k : Nat) :
    ∃ l, (exec s evs).liveTo k = s.liveTo k ++ l := by
  induction evs using List.reverseRecOn with
  | nil => exact ⟨[], by simp [exec]⟩
  | append_singleton evs ev ih =>
    obtain ⟨l, hl⟩ := ih
    have hj := inv_exec s evs hi
    rw [exec_append]
    rcases liveTo_step (exec s evs) ev k hj.nodup hj.conn with ⟨_, h2⟩ | ⟨m, _, h2⟩
    · exact ⟨l, by rw [h2, hl]⟩
    · exact ⟨l ++ if k ∈ (exec s evs).clients then [m] else [], by
        rw [h2, hl, List.append_assoc]⟩

theorem observed_count (s : State) (k : Nat) (m : Message) :
    (s.observed k).count m = (s.liveTo k).count m + (s.replayedTo k).count m := by
  unfold State.observed State.liveTo State.replayedTo
  generalize s.writes = ws
  induction ws with
  | nil => simp
  | cons w ws ih =>
    cases w with
    | text c t => simpa [List.filterMap_cons] using ih
    | live c msg =>
      by_cases hck : c = k
      · simp only [List.filterMap_cons, hck, if_true, List.count_cons, ih]
        omega
      · simpa [List.filterMap_cons, hck] using ih
    | replayed c msg =>
      by_cases hck : c = k
      · simp only [List.filterMap_cons, hck, if_true, List.count_cons, ih]
        omega
      · simpa [List.filterMap_cons, hck] using ih

/-! ## C1: uniqueness of names -/

/-- C1, at the failing run: two accepted connections both send `bob`; each
passes `isUsernameTaken` (line 99) before the other registers (line 117), and
both are registered under the same name. -/
theorem join_race_shares_name :
    (exec init joinRace).clients = [0, 1] ∧
    ((exec init joinRace).client 0).Name = "bob" ∧
    ((exec init joinRace).client 1).Name = "bob" ∧
    ¬ namesUnique (exec init joinRace) := by
  decide

/-! ## C2: capacity -/

/-- C2. In every reachable state the map `clients` holds at most 10 sessions
(each once), and a session that reaches the registration of lines 110-118 while
10 or more are registered is not added: the map, the store and all streams stay
as they are, one line goes to the log and the goroutine returns, which closes
its connection. -/
theorem capacity_invariant :
    (∀ evs : List Event, (exec init evs).clients.Nodup ∧ (exec init evs).clients.length ≤ 10) ∧
    (∀ (s : State) (h : Nat) (now : Time), s.pc h = Pc.register → 10 ≤ s.clients.length →
      (step s (.run h now)).clients = s.clients ∧
      (step s (.run h now)).pc h = Pc.closed ∧
      (step s (.run h now)).messages = s.messages ∧
      (step s (.run h now)).writes = s.writes ∧
      (step s (.run h now)).log =
        s.log ++ ["Maximum number of clients (10) reached, rejecting new connection"]) := by
  constructor
  · intro evs
    induction evs using List.reverseRecOn with
    | nil => simp [exec, init]
    | append_singleton evs ev ih =>
      rw [exec_append]
      exact ⟨clients_nodup_step _ _ ih.1, clients_length_step _ _ ih.2⟩
  · intro s h now hpc hlen
    have hlt : h < s.sessions.length := lt_of_pc s h (by rw [hpc]; decide)
    simp [step, runStep, hpc, registerStep, hlen, goto_pc, hlt, State.printf]

/-- C2, at the state in which ten of eleven accepted sessions have registered. -/
theorem capacity_invariant_witness :
    (exec init crowd).clients.length = 10 ∧
    (step (exec init crowd) (.run 10 t0)).clients = (exec init crowd).clients ∧
    (step (exec init crowd) (.run 10 t0)).pc 10 = Pc.closed :=
  have h := capacity_invariant.2 (exec init crowd) 10 t0 (by decide) (by decide)
  ⟨by decide, h.1, h.2.1⟩

/-! ## C3: immediate duplicates -/

/-- C3. Broadcasting a message and then at once a message with the same sender
and the same text (whatever its timestamp) leaves the state, hence the store,
the log and the stream of every connection, as the first broadcast left it; when
the first message is not itself a duplicate of the last record, the pair adds
exactly one record and one log line. -/
theorem broadcastMessage_twice (s : State) (m m' : Message) (hn : m'.Name = m.Name)
    (ht : m'.Text = m.Text) :
    broadcastMessage (broadcastMessage s m) m' = broadcastMessage s m ∧
    (∀ c, (broadcastMessage (broadcastMessage s m) m').stream c = (broadcastMessage s m).stream c) ∧
    (isDuplicate s m = false →
      (broadcastMessage (broadcastMessage s m) m').messages = s.messages ++ [m] ∧
      (broadcastMessage (broadcastMessage s m) m').log = s.log ++ [logMessage m]) := by
  have key : broadcastMessage (broadcastMessage s m) m' = broadcastMessage s m := by
    cases hd : isDuplicate s m with
    | true =>
      have h1 : broadcastMessage s m = s := by simp [broadcastMessage, hd]
      rw [h1]
      simp [broadcastMessage, isDuplicate_congr s m m' hn ht, hd]
    | false =>
      have h2 := isDuplicate_after s m m' hn ht hd
      generalize broadcastMessage s m = s1 at h2 ⊢
      simp [broadcastMessage, h2]
  refine ⟨key, fun c => by rw [key], fun hd => ?_⟩
  rw [key]
  simp [broadcastMessage, hd]

/-- C3, at a concrete state: a session that repeats its line. -/
theorem broadcastMessage_twice_witness :
    broadcastMessage (broadcastMessage (exec init (join 0 "Alice")) ⟨t0, "Alice", "hi"⟩)
        ⟨⟨2024, 1, 2, 3, 4, 6⟩, "Alice", "hi"⟩
      = broadcastMessage (exec init (join 0 "Alice")) ⟨t0, "Alice", "hi"⟩ :=
  (broadcastMessage_twice (exec init (join 0 "Alice")) ⟨t0, "Alice", "hi"⟩
    ⟨⟨2024, 1, 2, 3, 4, 6⟩, "Alice", "hi"⟩ rfl rfl).1

/-! ## C4: order of delivery -/

/-- C4, refuted as stated: Alice joins and says `hello`, then Bob joins.  Bob
receives his own join announcement live first and the two older records by
replay after it, while the store has his announcement last. -/
theorem join_seen_before_history :
    (exec init lateJoin).messages =
      [⟨t0, "Alice", joinedText⟩, ⟨t1, "Alice", "hello"⟩, ⟨t2, "Bob", joinedText⟩] ∧
    (exec init lateJoin).observed 1 =
      [⟨t2, "Bob", joinedText⟩, ⟨t0, "Alice", joinedText⟩, ⟨t1, "Alice", "hello"⟩] ∧
    ((exec init lateJoin).stream 1).drop 1 =
      ["Bob has joined our chat...\n", "Alice has joined our chat...\n",
        "[2024-01-02 03:04:06][Alice]: hello\n"] ∧
    ¬ List.Sublist ((exec init lateJoin).observed 1) (exec init lateJoin).messages := by
  decide

/-- C4, amended. In every run and for every connection, the records the
connection receives from `broadcastMessage` form, in the order received, a
subsequence of the store in append order, and so do the records it receives
from its replay loop; nothing is claimed about the two together, since the
replayed records are written after the session's own join announcement, which
the store holds after them. -/
theorem delivery_follows_store (evs : List Event) (k : Nat) :
    List.Sublist ((exec init evs).liveTo k) (exec init evs).messages ∧
    List.Sublist ((exec init evs).replayedTo k) (exec init evs).messages := by
  have hi := inv_exec init evs inv_init
  exact ⟨hi.live k, (List.sublist_append_left _ _).trans (hi.hist k)⟩

/-! ## C5: the replay skips the own join -/

/-- C5. Whatever the state and the store, a record written by the replay loop
(line 130) is written by a session to its own connection and is not that
session's join announcement: its sender differs from the session's name or its
text is not the join text. -/
theorem replay_excludes_own_join (s : State) (ev : Event) (c : Nat) (m : Message)
    (hw : Write.replayed c m ∈ emitted s ev) :
    ∃ h now, ev = Event.run h now ∧ c = (s.client h).Conn ∧
      ¬ (m.Name = (s.client h).Name ∧ m.Text = joinedText) := by
  unfold emitted at hw
  rcases step_effect s ev with ⟨_, h2⟩ | ⟨_, c', t, h2⟩ | ⟨_, h, now, m', rest, he, _, hk, h2⟩ |
    ⟨m', _, h2⟩
  · simp [h2] at hw
  · simp [h2] at hw
  · rw [h2, List.drop_left] at hw
    simp only [List.mem_singleton, Write.replayed.injEq] at hw
    obtain ⟨hc, hm⟩ := hw
    subst hm
    refine ⟨h, now, he, hc, ?_⟩
    rintro ⟨hn, ht⟩
    simp [replaySends, hn, ht] at hk
  · rw [h2, List.drop_left] at hw
    simp at hw

/-- C5, at the first iteration of the replay loop of a second session. -/
theorem replay_excludes_own_join_witness :
    ∃ h now, Event.run 1 t0 = Event.run h now ∧
      1 = ((exec init (join 0 "Alice" ++ settle 0 ++ join 1 "Bob")).client h).Conn ∧
      ¬ ((⟨t0, "Alice", joinedText⟩ : Message).Name =
          ((exec init (join 0 "Alice" ++ settle 0 ++ join 1 "Bob")).client h).Name ∧
        (⟨t0, "Alice", joinedText⟩ : Message).Text = joinedText) :=
  replay_excludes_own_join (exec init (join 0 "Alice" ++ settle 0 ++ join 1 "Bob")) (.run 1 t0) 1
    ⟨t0, "Alice", joinedText⟩ (by decide)

/-! ## C6: two renames to one name -/

/-- C6, at the failing run: `ann` and `bob` are active, `carl` is free, both
send `/name carl`; each passes `isUsernameTaken` (line 150) before the other
assigns `client.Name` (line 155), both renames succeed, both rename messages
are stored and neither session is sent a line saying the name is taken. -/
theorem rename_race_both_succeed :
    isUsernameTaken (exec init twoActive) "carl" = false ∧
    (exec init twoActive).pc 0 = Pc.active ∧ (exec init twoActive).pc 1 = Pc.active ∧
    ((exec init renameRace).client 0).Name = "carl" ∧
    ((exec init renameRace).client 1).Name = "carl" ∧
    (exec init renameRace).messages.drop 2 =
      [⟨t2, "ann", "changed their name to carl"⟩, ⟨t2, "bob", "changed their name to carl"⟩] ∧
    (∀ c, Write.text c "Username carl is already taken. Please choose another.\n"
      ∉ (exec init renameRace).writes) ∧
    ¬ namesUnique (exec init renameRace) := by
  refine ⟨by decide, by decide, by decide, by decide, by decide, by decide, ?_, by decide⟩
  intro c
  by_cases h0 : c = 0
  · subst h0; decide
  · by_cases h1 : c = 1
    · subst h1; decide
    · intro hm
      have : ∀ w ∈ (exec init renameRace).writes, w.conn = 0 ∨ w.conn = 1 := by decide
      rcases this _ hm with h | h
      · exact h0 h
      · exact h1 h

/-! ## C7: rejected renames -/

/-- C7, at the failing input: the active session Alice sends `/name éé`.  The
target has 2 characters, but `len` counts its 4 bytes, so the test of line 146
lets it pass: the session is renamed and the rename is broadcast. -/
theorem rename_two_characters_accepted :
    (exec init oneActive).pc 0 = Pc.active ∧
    TrimSpace (TrimPrefix (TrimSpace "/name éé") "/name ") = "éé" ∧
    "éé".length = 2 ∧ len "éé" = 4 ∧
    ((exec init (oneActive ++ [.line 0 "/name éé" t1, .run 0 t1, .run 0 t1])).client 0).Name
      = "éé" ∧
    (exec init (oneActive ++ [.line 0 "/name éé" t1, .run 0 t1, .run 0 t1])).messages
      = [⟨t0, "Alice", joinedText⟩, ⟨t1, "Alice", "changed their name to éé"⟩] ∧
    ((exec init (oneActive ++ [.line 0 "/name éé" t1, .run 0 t1, .run 0 t1])).stream 0).drop 2
      = ["[2024-01-02 03:04:06][Alice]: changed their name to éé\n"] := by
  decide

/-- A rename request whose target, counted in bytes, is shorter than 3 or longer
than 20, or is the name of a registered session, only sends one error line to
the requester: names, positions, registry, store and log stay as they are. -/
theorem rename_rejected (s : State) (h : Nat) (txt : String) (now : Time)
    (hpc : s.pc h = Pc.active) (hp : HasPrefix (TrimSpace txt) "/name " = true)
    (hbad : len (TrimSpace (TrimPrefix (TrimSpace txt) "/name ")) < 3 ∨
      20 < len (TrimSpace (TrimPrefix (TrimSpace txt) "/name ")) ∨
      isUsernameTaken s (TrimSpace (TrimPrefix (TrimSpace txt) "/name ")) = true) :
    ∃ err, step s (.line h txt now) = s.fprintf h err := by
  have hne : TrimSpace txt ≠ "" := by
    intro he
    rw [he] at hp
    exact absurd hp (by decide)
  by_cases hl : len (TrimSpace (TrimPrefix (TrimSpace txt) "/name ")) < 3 ∨
      len (TrimSpace (TrimPrefix (TrimSpace txt) "/name ")) > 20
  · exact ⟨_, by simp only [step, hpc, lineStep, hne, hp, if_true, if_false, hl]; rfl⟩
  · have ht : isUsernameTaken s (TrimSpace (TrimPrefix (TrimSpace txt) "/name ")) = true := by
      rcases hbad with h1 | h1 | h1
      · exact absurd (Or.inl h1) hl
      · exact absurd (Or.inr h1) hl
      · exact h1
    exact ⟨_, by simp only [step, hpc, lineStep, hne, hp, if_true, if_false, hl, ht]; rfl⟩

/-- A line made of `/name` and white space only is not treated as a rename
request: after `TrimSpace` it no longer has the prefix `/name ` and it is
broadcast as the chat line `/name`. -/
theorem rename_without_target_is_chat :
    (exec init (oneActive ++ [.line 0 "/name   " t1])).messages
      = [⟨t0, "Alice", joinedText⟩, ⟨t1, "Alice", "/name"⟩] := by
  decide

/-! ## C8: rendering -/

/-- C8, refuted as stated: the chat line `who left our chat?` typed by Alice
reaches her connection as `Alice who left our chat?`, without a timestamp, and
so does the rename message of a session that takes the name `joined our chat`. -/
theorem user_text_rendered_as_event :
    (exec init (join 0 "Alice" ++ settle 0 ++ [.line 0 "who left our chat?" t0])).messages
        = [⟨t0, "Alice", joinedText⟩, ⟨t0, "Alice", "who left our chat?"⟩] ∧
    ((exec init (join 0 "Alice" ++ settle 0 ++ [.line 0 "who left our chat?" t0])).stream 0).drop 2
        = ["Alice who left our chat?\n"] ∧
    sendMessageToClient ⟨t0, "Alice", "who left our chat?"⟩
        ≠ "[2024-01-02 03:04:05][Alice]: who left our chat?\n" ∧
    ((exec init (join 0 "Alice" ++ settle 0 ++
        [.line 0 "/name joined our chat" t0, .run 0 t0, .run 0 t0])).stream 0).drop 2
        = ["Alice changed their name to joined our chat\n"] := by
  decide

/-- C8, amended. A join or leave announcement is rendered `<name> <text>\n`,
without a timestamp.  Any other message is rendered
`[<YYYY-MM-DD HH:MM:SS>][<name>]: <text>\n`, the timestamp taking 19
characters, provided its text contains neither `joined our chat` nor
`left our chat`; a message whose text contains one of the two is rendered
`<name> <text>\n` like an announcement. -/
theorem sendMessageToClient_format (msg : Message) :
    (msg.Text = joinedText ∨ msg.Text = leftText →
      sendMessageToClient msg = msg.Name ++ " " ++ msg.Text ++ "\n") ∧
    (Contains msg.Text "joined our chat" = false → Contains msg.Text "left our chat" = false →
      sendMessageToClient msg =
        "[" ++ msg.Timestamp.Format ++ "][" ++ msg.Name ++ "]: " ++ msg.Text ++ "\n" ∧
      msg.Timestamp.Format.length = 19) ∧
    (Contains msg.Text "joined our chat" = true ∨ Contains msg.Text "left our chat" = true →
      sendMessageToClient msg = msg.Name ++ " " ++ msg.Text ++ "\n") := by
  refine ⟨?_, ?_, ?_⟩
  · rintro (h | h)
    · have : Contains joinedText "joined our chat" = true := by decide
      simp [sendMessageToClient, h, this]
    · have : Contains leftText "left our chat" = true := by decide
      simp [sendMessageToClient, h, this]
  · intro h1 h2
    refine ⟨by simp [sendMessageToClient, h1, h2], ?_⟩
    simp [Time.Format, String.length, pad2, pad4]
  · rintro (h | h) <;> simp [sendMessageToClient, h]

/-- C8, amended, at a chat line and at a join announcement. -/
theorem sendMessageToClient_format_witness :
    sendMessageToClient ⟨t0, "Alice", "hello"⟩ = "[2024-01-02 03:04:05][Alice]: hello\n" ∧
    sendMessageToClient ⟨t0, "Alice", joinedText⟩ = "Alice has joined our chat...\n" :=
  ⟨((sendMessageToClient_format ⟨t0, "Alice", "hello"⟩).2.1 (by decide) (by decide)).1,
    (sendMessageToClient_format ⟨t0, "Alice", joinedText⟩).1 (Or.inl rfl)⟩

/-! ## C9: delivery of chat lines -/

/-- C9, refuted as stated, in both directions.  Alice sends `hi` twice in a row:
the second line is not empty and is no `/name` command, yet the step changes
nothing, so the line is neither stored nor written to anyone.  Bob has
registered and announced himself but not yet started his replay when Alice
sends `x`: the store holds the record once, and Bob's connection receives it
twice, live and then again by replay. -/
theorem chat_line_dropped_or_doubled :
    ((exec init (oneActive ++ [.line 0 "hi" t1])).pc 0 = Pc.active ∧
      TrimSpace "hi" ≠ "" ∧ HasPrefix (TrimSpace "hi") "/name " = false ∧
      step (exec init (oneActive ++ [.line 0 "hi" t1])) (.line 0 "hi" t2)
        = exec init (oneActive ++ [.line 0 "hi" t1])) ∧
    ((exec init midJoin).pc 0 = Pc.active ∧ (exec init midJoin).clients = [0, 1] ∧
      (exec init midJoin).pc 1 = Pc.history ∧
      (exec init doubled).messages =
        [⟨t0, "Alice", joinedText⟩, ⟨t1, "Bob", joinedText⟩, ⟨t2, "Alice", "x"⟩] ∧
      (exec init doubled).observed 1 =
        [⟨t1, "Bob", joinedText⟩, ⟨t2, "Alice", "x"⟩, ⟨t0, "Alice", joinedText⟩,
          ⟨t2, "Alice", "x"⟩] ∧
      ((exec init doubled).stream 1).drop 1 =
        ["Bob has joined our chat...\n", "[2024-01-02 03:04:07][Alice]: x\n",
          "Alice has joined our chat...\n", "[2024-01-02 03:04:07][Alice]: x\n"]) := by
  decide

/-- C9, amended. In every reachable state, a line read by an active session that
is not empty after trimming and does not start with `/name ` is submitted as
one message bearing the sender's current name and the trimmed line.  The sender
is registered.  If the last record of the store has the same sender and the
same text, the line is dropped and the state does not change.  Otherwise the
message is appended once to the store, logged once, and written by this
broadcast exactly once to the connection of every registered session, and to no
other connection.  Over the rest of the run, under every schedule, a registered
session whose replay loop has started or is over is replayed nothing but
records the store held before the broadcast; a registered session that has not
started its replay loop is replayed the record once its loop is over, provided
the test of line 129 lets the record pass, and so receives it at least twice. -/
theorem chat_line_delivered (s : State) (hs : Reachable s) (h : Nat) (txt : String) (now : Time)
    (hpc : s.pc h = Pc.active) (hne : TrimSpace txt ≠ "")
    (hcmd : HasPrefix (TrimSpace txt) "/name " = false) :
    h ∈ s.clients ∧
    (isDuplicate s ⟨now, (s.client h).Name, TrimSpace txt⟩ = true →
      step s (.line h txt now) = s) ∧
    (isDuplicate s ⟨now, (s.client h).Name, TrimSpace txt⟩ = false →
      (step s (.line h txt now)).messages
        = s.messages ++ [⟨now, (s.client h).Name, TrimSpace txt⟩] ∧
      (step s (.line h txt now)).log
        = s.log ++ [logMessage ⟨now, (s.client h).Name, TrimSpace txt⟩] ∧
      (∀ c ∈ s.clients, (step s (.line h txt now)).stream c
        = s.stream c ++ [sendMessageToClient ⟨now, (s.client h).Name, TrimSpace txt⟩]) ∧
      (∀ c, c ∉ s.clients → (step s (.line h txt now)).stream c = s.stream c) ∧
      (∀ c ∈ s.clients, 4 ≤ (s.pc c).stage → ∀ evs : List Event,
        List.Sublist ((exec (step s (.line h txt now)) evs).replayedTo c) s.messages) ∧
      (∀ c ∈ s.clients, (s.pc c).stage ≤ 3 →
        replaySends (s.client c).Name ⟨now, (s.client h).Name, TrimSpace txt⟩ = true →
        ∀ evs : List Event, ((exec (step s (.line h txt now)) evs).pc c).stage = 5 →
          (⟨now, (s.client h).Name, TrimSpace txt⟩ : Message)
            ∈ (exec (step s (.line h txt now)) evs).replayedTo c ∧
          2 ≤ ((exec (step s (.line h txt now)) evs).observed c).count
            ⟨now, (s.client h).Name, TrimSpace txt⟩)) := by
  have hi := inv_reachable hs
  have hstep : step s (.line h txt now) =
      broadcastMessage s ⟨now, (s.client h).Name, TrimSpace txt⟩ := by
    simp [step, hpc, lineStep, hne, hcmd]
  have hi' : Inv (step s (.line h txt now)) := inv_step s _ hi
  rw [hstep] at hi' ⊢
  refine ⟨hi.reg h (by rw [hpc]; rfl), fun hd => broadcastMessage_dup s _ hd, fun hd => ?_⟩
  have hmsg : (broadcastMessage s ⟨now, (s.client h).Name, TrimSpace txt⟩).messages =
      s.messages ++ [⟨now, (s.client h).Name, TrimSpace txt⟩] := by
    simp [broadcastMessage_new s _ hd]
  refine ⟨hmsg, by simp [broadcastMessage_new s _ hd], ?_, ?_, ?_, ?_⟩
  · intro c hc
    rw [stream_broadcast s hi _ hd c, if_pos hc]
  · intro c hc
    rw [stream_broadcast s hi _ hd c, if_neg hc]
    simp
  · intro c hc hst evs
    have hlt : c < s.sessions.length := lt_of_pc s c (by
      intro he
      have := hi.mem c hc
      rw [he] at this
      cases this)
    have hstart : PastOk s.messages c (broadcastMessage s ⟨now, (s.client h).Name, TrimSpace txt⟩) :=
      ⟨by simpa using hlt, by simpa using hst, by simpa using hi.hist c⟩
    exact (List.sublist_append_left _ _).trans (pastOk_exec _ c _ evs hi' hstart).2.2
  · intro c hc hst hkeep evs hfin
    have hreg := hi.mem c hc
    have hlt : c < s.sessions.length := lt_of_pc s c (by
      intro he
      rw [he] at hreg
      cases hreg)
    have hearly : s.pc c = Pc.announce ∨ s.pc c = Pc.history := by
      cases hp : s.pc c <;> rw [hp] at hreg hst <;> simp_all [Pc.registered, Pc.stage]
    have hstart : AgainOk (s.client c).Name ⟨now, (s.client h).Name, TrimSpace txt⟩ c
        (broadcastMessage s ⟨now, (s.client h).Name, TrimSpace txt⟩) :=
      ⟨by simpa using hlt, by rw [hmsg]; simp, Or.inl ⟨by simpa using hearly, by simp⟩⟩
    obtain ⟨_, _, hr⟩ := againOk_exec _ _ c _ evs hi' hkeep hstart
    have hin : (⟨now, (s.client h).Name, TrimSpace txt⟩ : Message)
        ∈ (exec (broadcastMessage s ⟨now, (s.client h).Name, TrimSpace txt⟩) evs).replayedTo c := by
      rcases hr with ⟨hp, _⟩ | ⟨h4, _, _⟩ | ⟨_, hin⟩
      · rcases hp with hp | hp <;> rw [hp] at hfin <;> simp [Pc.stage] at hfin
      · omega
      · exact hin
    refine ⟨hin, ?_⟩
    obtain ⟨l, hl⟩ := liveTo_exec _ evs hi' c
    have hlive : (broadcastMessage s ⟨now, (s.client h).Name, TrimSpace txt⟩).liveTo c =
        s.liveTo c ++ [⟨now, (s.client h).Name, TrimSpace txt⟩] := by
      have hmap : (s.clients.map fun j =>
            Write.live (s.client j).Conn ⟨now, (s.client h).Name, TrimSpace txt⟩) =
          s.clients.map fun j => Write.live j ⟨now, (s.client h).Name, TrimSpace txt⟩ := by
        apply List.map_congr_left
        intro j _
        rw [hi.conn j]
      rw [broadcastMessage_new s _ hd]
      simp only [State.liveTo, List.filterMap_append, hmap]
      rw [liveTo_fanout s.clients hi.nodup _ c, if_pos hc]
    rw [observed_count, hl, hlive]
    have h1 : 1 ≤ List.count (⟨now, (s.client h).Name, TrimSpace txt⟩ : Message)
        ((exec (broadcastMessage s ⟨now, (s.client h).Name, TrimSpace txt⟩) evs).replayedTo c) :=
      List.count_pos_iff.mpr hin
    simp only [List.count_append, List.count_singleton_self]
    omega

/-- C9, amended, at the line `x` that Alice sends while Bob is about to start his
replay: once Bob's loop is over the record has been replayed to him and his
connection has received it twice. -/
theorem chat_line_delivered_witness :
    (⟨t2, ((exec init midJoin).client 0).Name, TrimSpace "x"⟩ : Message)
        ∈ (exec (step (exec init midJoin) (.line 0 "x" t2)) (.run 1 t2 :: settle 1)).replayedTo 1 ∧
      2 ≤ ((exec (step (exec init midJoin) (.line 0 "x" t2)) (.run 1 t2 :: settle 1)).observed 1).count
        ⟨t2, ((exec init midJoin).client 0).Name, TrimSpace "x"⟩ :=
  ((chat_line_delivered (exec init midJoin) ⟨midJoin, rfl⟩ 0 "x" t2 (by decide) (by decide)
    (by decide)).2.2 (by decide)).2.2.2.2.2 1 (by decide) (by decide) (by decide)
    (.run 1 t2 :: settle 1) (by decide)

/-! ## C10: what the replay sends -/

/-- C10, refuted as stated: Alice joins and leaves, then a new connection
joins as Alice.  The store holds three records; the replay omits two of them,
the join of the new session and the join of the earlier one, and sends only
the leave announcement. -/
theorem replay_omits_earlier_join :
    (exec init rejoin).messages =
      [⟨t0, "Alice", joinedText⟩, ⟨t1, "Alice", leftText⟩, ⟨t2, "Alice", joinedText⟩] ∧
    (exec init rejoin).pc 1 = Pc.active ∧
    (exec init rejoin).replayedTo 1 = [⟨t1, "Alice", leftText⟩] := by
  decide

/-- C10, amended. Let a session in a reachable state be about to start its
replay loop (line 128).  Under every schedule, once it has left the loop, the
records replayed to it are the store as it was when the loop started, in
append order, without the records whose sender is the session's name and whose
text is the join text, every such record being omitted and no other. -/
theorem replay_complete (s : State) (hs : Reachable s) (k : Nat) (now : Time)
    (evs : List Event) (hpc : s.pc k = Pc.history)
    (hfin : ((exec (step s (.run k now)) evs).pc k).stage = 5) :
    (exec (step s (.run k now)) evs).replayedTo k =
      s.messages.filter (replaySends (s.client k).Name) := by
  have hi := inv_reachable hs
  have hlt : k < s.sessions.length := lt_of_pc s k (by rw [hpc]; simp)
  have h1 : step s (.run k now) = s.goto k (.replay s.messages) := by
    simp [step, runStep, hpc]
  have hstart : ReplayOk (s.client k).Name (s.messages.filter (replaySends (s.client k).Name)) k
      (step s (.run k now)) := by
    rw [h1]
    refine ⟨by simpa using hlt, Or.inl ⟨?_, by simp, ?_⟩⟩
    · simp [goto_pc, hlt, Pc.stage]
    · rw [replayedTo_goto, hi.fresh k (by rw [hpc]; simp [Pc.stage])]
      simp [goto_pc, hlt, Pc.pending]
  obtain ⟨_, hr⟩ := replayOk_exec _ _ k _ evs (inv_step s _ hi) hstart
  rcases hr with ⟨hs4, _, _⟩ | ⟨_, hl⟩
  · omega
  · exact hl

/-- C10, amended, at the second Alice of the run `rejoin`. -/
theorem replay_complete_witness :
    (exec (step (exec init rejoinStart) (.run 1 t2)) (settle 1)).replayedTo 1 =
      (exec init rejoinStart).messages.filter
        (replaySends ((exec init rejoinStart).client 1).Name) :=
  replay_complete (exec init rejoinStart) ⟨rejoinStart, rfl⟩ 1 t2 (settle 1) (by decide)
    (by decide)

end Netcat
